import Mathlib

/-!
# Verification of the Trello-clone backend position/authorization core

Shallow embedding of the position-reordering and ownership-authorization
logic of the kanban backend (boards → lists → cards).

The embedding models the database tables as Lean lists of rows.  A card
row keeps the fields that the position logic reads or writes: `id`,
`listId` and `position`.  A list row keeps `id`, `boardId`, `position`;
a board row keeps `id` and `ownerId`.  The `title`, `description` and
timestamp columns are carried along by the source code but never read by
any position or authorization decision, so they are elided from the row
types.  Positions are modelled as `Int`, matching the SQL `integer`
column; the zod validators (`z.number().int().min(0)`) guarantee that
requested positions are non-negative, which appears as a hypothesis
where a claim needs it.

Each SQL statement of the source is translated to one list operation:
`SELECT ... WHERE id = x LIMIT 1` becomes `List.find?`,
`UPDATE ... WHERE <container> = l AND position >= lo [AND position <= hi]`
becomes a `List.map` guarded by the same predicate (`bulkShiftCards` /
`bulkShiftLists`), `DELETE WHERE id = x` becomes `List.filter`, and
`INSERT ... RETURNING` becomes an append.
-/

/-- A row of the `cards` table (position-relevant columns). -/
structure Card where
  id : Nat
  listId : Nat
  position : Int
  deriving DecidableEq, Repr

/-- A row of the `lists` table (position-relevant columns). -/
structure ListRow where
  id : Nat
  boardId : Nat
  position : Int
  deriving DecidableEq, Repr

/-- A row of the `boards` table (ownership-relevant columns). -/
structure Board where
  id : Nat
  ownerId : Nat
  deriving DecidableEq, Repr

/-- The optional upper bound of a bulk update: satisfied vacuously when
the SQL statement carries no `lte` clause. -/
def leHi (x : Int) : Option Int → Prop
  | none => True
  | some h => x ≤ h

instance (x : Int) : (hi : Option Int) → Decidable (leHi x hi)
  | none => .isTrue trivial
  | some h => inferInstanceAs (Decidable (x ≤ h))

/-- Bulk update `UPDATE cards SET position = position + d WHERE listId = lid AND
position >= lo` (and, when `hi = some h`, `AND position <= h`).
This is the single bulk-update shape used by every sibling shift in
`CardService` and `card.controller.ts`. -/
def bulkShiftCards (st : List Card) (lid : Nat) (lo : Int) (hi : Option Int)
    (d : Int) : List Card :=
  st.map fun c =>
    if c.listId = lid ∧ lo ≤ c.position ∧ leHi c.position hi then
      { c with position := c.position + d }
    else c

/-- Same bulk update on the `lists` table (`boardId` in place of `listId`). -/
def bulkShiftLists (st : List ListRow) (bid : Nat) (lo : Int) (hi : Option Int)
    (d : Int) : List ListRow :=
  st.map fun l =>
    if l.boardId = bid ∧ lo ≤ l.position ∧ leHi l.position hi then
      { l with position := l.position + d }
    else l

/-- The expression `existingCards.length > 0 ? Math.max(...existingCards.map(c => c.position)) + 1 : 0`
for the cards of list `lid` — the auto-assigned end-of-container position
used by `CardService.create` and the cross-list branch of
`CardService.update`. -/
def nextCardPosition (st : List Card) (lid : Nat) : Int :=
  match ((st.filter fun c => c.listId = lid).map fun c => c.position).max? with
  | some m => m + 1
  | none => 0

/-- End-of-container position for the lists of board `bid`
(`ListService.create`). -/
def nextListPosition (st : List ListRow) (bid : Nat) : Int :=
  match ((st.filter fun l => l.boardId = bid).map fun l => l.position).max? with
  | some m => m + 1
  | none => 0

/-- Input of `CardService.create` (title/description elided). -/
structure CreateCardData where
  listId : Nat
  position : Option Int
  deriving DecidableEq, Repr

/-- Input of `CardService.update` (title/description elided).  The zod
schema makes `listId` a *positive* integer when present, so JavaScript
truthiness of `data.listId` coincides with `Option.isSome`. -/
structure UpdateCardData where
  listId : Option Nat := none
  position : Option Int := none
  deriving DecidableEq, Repr

/-- The field assignment of the final
`UPDATE cards SET ... WHERE id = cardId` of `CardService.update` /
`updateCard`: position is written iff `data.position !== undefined`,
listId iff `data.listId` is truthy. -/
def applyCardSet (data : UpdateCardData) (c : Card) : Card :=
  { c with
    position := match data.position with | some p => p | none => c.position
    listId := match data.listId with | some l => l | none => c.listId }

/-- Service method `CardService.create` (src/services/card.service.ts): if no position is
given, compute the end-of-container position; otherwise shift all cards of
the list at or after that position by `+1`; then insert the new row.
Returns the new card and the new table.  `newId` stands for the value the
serial primary key generator produces. -/
def CardService.create (st : List Card) (newId : Nat) (data : CreateCardData) :
    Card × List Card :=
  let step : Int × List Card :=
    match data.position with
    | none => (nextCardPosition st data.listId, st)
    | some p => (p, bulkShiftCards st data.listId p none 1)
  let newCard : Card := { id := newId, listId := data.listId, position := step.1 }
  (newCard, step.2 ++ [newCard])

/-- The same-list reposition block shared by `CardService.update` (cards of
`existingCard.listId`) — `if (oldPosition !== newPosition) { if newer >
older shift [old+1, new] by -1 else shift [new, old-1] by +1 }`. -/
def sameListShiftCards (st : List Card) (lid : Nat) (oldP newP : Int) :
    List Card :=
  if oldP ≠ newP then
    if newP > oldP then bulkShiftCards st lid (oldP + 1) (some newP) (-1)
    else if newP < oldP then bulkShiftCards st lid newP (some (oldP - 1)) 1
    else st
  else st

/-- Service method `CardService.update` (src/services/card.service.ts).  Reads the
existing card (`null` when absent); if a different `listId` is supplied,
performs the cross-list move (close the source gap, then append-or-shift
in the destination, remembering the computed position); else if a
position is supplied (with `listId` absent or equal to the current list)
performs the same-list reposition; finally writes the supplied fields on
the row.  Returns the new table (`none` when the card does not exist). -/
def CardService.update (st : List Card) (cardId : Nat) (data : UpdateCardData) :
    Option (List Card) :=
  match st.find? fun c => c.id = cardId with
  | none => none
  | some existingCard =>
    let step : List Card × UpdateCardData :=
      match data.listId with
      | some newList =>
        if newList ≠ existingCard.listId then
          let st1 := bulkShiftCards st existingCard.listId
            (existingCard.position + 1) none (-1)
          match data.position with
          | none =>
            (st1, { data with position := some (nextCardPosition st1 newList) })
          | some p => (bulkShiftCards st1 newList p none 1, data)
        else
          match data.position with
          | some p =>
            (sameListShiftCards st existingCard.listId existingCard.position p,
              data)
          | none => (st, data)
      | none =>
        match data.position with
        | some p =>
          (sameListShiftCards st existingCard.listId existingCard.position p,
            data)
        | none => (st, data)
    some (step.1.map fun c => if c.id = cardId then applyCardSet step.2 c else c)

/-- Service method `CardService.delete` (src/services/card.service.ts): `false` when the
card does not exist; otherwise delete the row and shift every remaining
card of the list with `position >= deletedPosition + 1` by `-1`. -/
def CardService.delete (st : List Card) (cardId : Nat) : Bool × List Card :=
  match st.find? fun c => c.id = cardId with
  | none => (false, st)
  | some existingCard =>
    let st1 := st.filter fun c => ¬ c.id = cardId
    (true, bulkShiftCards st1 existingCard.listId (existingCard.position + 1)
      none (-1))

/-- Input of `ListService.create` (title elided). -/
structure CreateListData where
  boardId : Nat
  position : Option Int
  deriving DecidableEq, Repr

/-- Input of `ListService.update` (title elided). -/
structure UpdateListData where
  position : Option Int := none
  deriving DecidableEq, Repr

/-- Service method `ListService.create` (src/services/list.service.ts), same algorithm as
`CardService.create` on the `lists` table. -/
def ListService.create (st : List ListRow) (newId : Nat) (data : CreateListData) :
    ListRow × List ListRow :=
  let step : Int × List ListRow :=
    match data.position with
    | none => (nextListPosition st data.boardId, st)
    | some p => (p, bulkShiftLists st data.boardId p none 1)
  let newList : ListRow := { id := newId, boardId := data.boardId, position := step.1 }
  (newList, step.2 ++ [newList])

/-- The same-board reposition block of `ListService.update` /
`updateList`. -/
def sameBoardShiftLists (st : List ListRow) (bid : Nat) (oldP newP : Int) :
    List ListRow :=
  if oldP ≠ newP then
    if newP > oldP then bulkShiftLists st bid (oldP + 1) (some newP) (-1)
    else if newP < oldP then bulkShiftLists st bid newP (some (oldP - 1)) 1
    else st
  else st

/-- Service method `ListService.update` (src/services/list.service.ts): reads the
existing list (`null` when absent), performs the same-board reposition
when a position is supplied, then writes the supplied fields on the row. -/
def ListService.update (st : List ListRow) (listId : Nat) (data : UpdateListData) :
    Option (List ListRow) :=
  match st.find? fun l => l.id = listId with
  | none => none
  | some existingList =>
    let st1 : List ListRow :=
      match data.position with
      | some p =>
        sameBoardShiftLists st existingList.boardId existingList.position p
      | none => st
    some (st1.map fun l =>
      if l.id = listId then
        { l with position := match data.position with
            | some p => p | none => l.position }
      else l)

/-- Service method `ListService.delete` (src/services/list.service.ts): `false` when the
list does not exist; otherwise delete the row and shift the remaining
lists of the board after the deleted position by `-1`. -/
def ListService.delete (st : List ListRow) (listId : Nat) : Bool × List ListRow :=
  match st.find? fun l => l.id = listId with
  | none => (false, st)
  | some existingList =>
    let st1 := st.filter fun l => ¬ l.id = listId
    (true, bulkShiftLists st1 existingList.boardId (existingList.position + 1)
      none (-1))

/-- The positions of the direct children of list `lid`, i.e. of the rows
`findByListId` returns. -/
def childCardPositions (st : List Card) (lid : Nat) : List Int :=
  (st.filter fun c => c.listId = lid).map fun c => c.position

/-- The positions of the lists of board `bid`. -/
def childListPositions (st : List ListRow) (bid : Nat) : List Int :=
  (st.filter fun l => l.boardId = bid).map fun l => l.position

/-- The list `[0, 1, ..., n-1]` as integers. -/
def intRange (n : Nat) : List Int := (List.range n).map Int.ofNat

/-- Dense ordering of a bag of positions: sorting it yields exactly
`0..n-1` — equivalently, it is a permutation of `0..n-1`. -/
def densePositions (ps : List Int) : Prop := ps.Perm (intRange ps.length)

instance (ps : List Int) : Decidable (densePositions ps) := by
  unfold densePositions; infer_instance

/-! ## Controller and authorization layer

The HTTP routes bind `authMiddleware` plus an `authorize*` middleware and
a controller.  The embedding keeps the database as one record of the
three tables and models each controller (after transport concerns —
authentication, `parseInt`, zod shape validation — which are out of the
claims' scope) as a pure function from the database and the acting user
to a response tag and the new database. -/

/-- The database state seen by the controllers. -/
structure DB where
  boards : List Board
  lists : List ListRow
  cards : List Card
  deriving DecidableEq, Repr

/-- Helper `checkListOwnership` (src/controllers/card.controller.ts): select the
list joined with its board, `limit 1`; true iff a row came back and its
`ownerId` equals the user. -/
def checkListOwnership (db : DB) (listId userId : Nat) : Bool :=
  match db.lists.find? fun l => l.id = listId with
  | none => false
  | some l =>
    match db.boards.find? fun b => b.id = l.boardId with
    | none => false
    | some b => b.ownerId = userId

/-- Service method `AuthorizationService.canAccessList`
(src/services/authorization.service.ts): the same join, with the result
read as `result?.ownerId === userId` — an absent row makes the comparison
false. -/
def AuthorizationService.canAccessList (db : DB) (listId userId : Nat) : Bool :=
  match db.lists.find? fun l => l.id = listId with
  | none => false
  | some l =>
    match db.boards.find? fun b => b.id = l.boardId with
    | none => false
    | some b => b.ownerId = userId

/-- Response of the `PUT /api/cards/:id` controller, keeping the distinct
status/message pairs the source emits. -/
inductive CardUpdateResp where
  | notFound            -- 404 'Card not found'
  | forbiddenCard       -- 403 'You do not have permission to update this card'
  | forbiddenTargetList -- 403 'You do not have access to the target list'
  | ok                  -- 200
  deriving DecidableEq, Repr

/-- Controller `updateCard` (src/controllers/card.controller.ts), from the existence
check onward: 404 when the card is absent; 403 when the user does not own
the board of the card's list; on a move to a different list, 403 when the
user does not own the target list's board, checked *before* any shift;
then the cross-list or same-list position logic — note the same-list
branch fires only when the body carries **no** `listId`
(`validatedData.position !== undefined && !validatedData.listId`) — and
the final field write. -/
def updateCardController (db : DB) (userId cardId : Nat)
    (data : UpdateCardData) : CardUpdateResp × DB :=
  match db.cards.find? fun c => c.id = cardId with
  | none => (.notFound, db)
  | some existingCard =>
    if ¬ checkListOwnership db existingCard.listId userId then
      (.forbiddenCard, db)
    else
      match data.listId with
      | some newList =>
        if newList ≠ existingCard.listId then
          if ¬ checkListOwnership db newList userId then
            (.forbiddenTargetList, db)
          else
            let cards1 := bulkShiftCards db.cards existingCard.listId
              (existingCard.position + 1) none (-1)
            let step : List Card × UpdateCardData :=
              match data.position with
              | none =>
                (cards1,
                  { data with position := some (nextCardPosition cards1 newList) })
              | some p => (bulkShiftCards cards1 newList p none 1, data)
            (.ok, { db with cards := step.1.map fun c =>
              if c.id = cardId then applyCardSet step.2 c else c })
        else
          -- listId present and equal to the current list: neither the
          -- cross-list branch nor the `!validatedData.listId` same-list
          -- branch fires; the write happens with no sibling shift.
          (.ok, { db with cards := db.cards.map fun c =>
            if c.id = cardId then applyCardSet data c else c })
      | none =>
        let cards1 : List Card :=
          match data.position with
          | some p =>
            sameListShiftCards db.cards existingCard.listId
              existingCard.position p
          | none => db.cards
        (.ok, { db with cards := cards1.map fun c =>
          if c.id = cardId then applyCardSet data c else c })

/-- Response of the `POST /api/cards` controller. -/
inductive CardCreateResp where
  | forbidden           -- 403 'You do not have access to this list'
  | created (c : Card)  -- 201
  deriving DecidableEq, Repr

/-- Controller `createCard` (src/controllers/card.controller.ts): 403 when the user
does not own the board of the target list (`checkListOwnership` is also
false when the list does not exist); otherwise the same position logic as
`CardService.create` runs and the card is inserted. -/
def createCardController (db : DB) (userId newId : Nat)
    (data : CreateCardData) : CardCreateResp × DB :=
  if ¬ checkListOwnership db data.listId userId then (.forbidden, db)
  else
    let r := CardService.create db.cards newId data
    (.created r.1, { db with cards := r.2 })

/-- Response of `GET /api/lists/:id` as routed
(`router.get('/:id', authorizeList, getListById)`). -/
inductive ListGetResp where
  | forbidden          -- 403 from authorizeList
  | notFound           -- 404 'List not found' from getListById
  | ok (l : ListRow)   -- 200
  deriving DecidableEq, Repr

/-- The `GET /api/lists/:id` pipeline: `authorizeList`
(src/middleware/authorize.middleware.ts) responds 403 whenever
`canAccessList` is false — which includes a nonexistent list id — and
only then does `getListById` run its own 404 check. -/
def getListByIdRoute (db : DB) (userId listId : Nat) : ListGetResp :=
  if ¬ AuthorizationService.canAccessList db listId userId then .forbidden
  else
    match db.lists.find? fun l => l.id = listId with
    | none => .notFound
    | some l => .ok l

/-! ## Operation sequences

Machinery for the density-invariant claim: an operation algebra over the
card table (insert / move / delete through the service layer) and the
in-range side condition under which density is preserved. -/

/-- Number of direct children of list `lid`. -/
def cardCount (st : List Card) (lid : Nat) : Nat :=
  (st.filter fun c => c.listId = lid).length

/-- Number of lists of board `bid`. -/
def listCount (st : List ListRow) (bid : Nat) : Nat :=
  (st.filter fun l => l.boardId = bid).length

/-- Primary keys are unique (serial column). -/
def uniqueCardIds (st : List Card) : Prop := (st.map fun c => c.id).Nodup

instance (st : List Card) : Decidable (uniqueCardIds st) := by
  unfold uniqueCardIds; infer_instance

/-- Primary keys of the `lists` table are unique. -/
def uniqueListIds (st : List ListRow) : Prop := (st.map fun l => l.id).Nodup

instance (st : List ListRow) : Decidable (uniqueListIds st) := by
  unfold uniqueListIds; infer_instance

/-- One mutation of the cards table, routed through `CardService`. -/
inductive CardOp where
  | create (newId : Nat) (data : CreateCardData)
  | update (cardId : Nat) (data : UpdateCardData)
  | delete (cardId : Nat)
  deriving DecidableEq, Repr

/-- Apply one operation (a failed update/delete leaves the table as is,
exactly as the service returns `null`/`false` without writing). -/
def applyCardOp (st : List Card) : CardOp → List Card
  | .create newId data => (CardService.create st newId data).2
  | .update cardId data => (CardService.update st cardId data).getD st
  | .delete cardId => (CardService.delete st cardId).2

/-- Apply a sequence of operations in order. -/
def applyCardOps (st : List Card) (ops : List CardOp) : List Card :=
  ops.foldl applyCardOp st

/-- The in-range side condition on one operation: a freshly generated id
for an insert, and every explicitly supplied position within the target
container's current valid range (`≤ count` for an insert or a
cross-container move, `< count` for a same-container reposition). -/
def cardOpInRange (st : List Card) : CardOp → Bool
  | .create newId data =>
      decide (newId ∉ st.map fun c => c.id) &&
      (match data.position with
       | some p => decide (0 ≤ p ∧ p ≤ cardCount st data.listId)
       | none => true)
  | .update cardId data =>
      match st.find? fun c => c.id = cardId with
      | none => true
      | some c0 =>
        match data.listId with
        | some dst =>
          if dst = c0.listId then
            match data.position with
            | some p => decide (0 ≤ p ∧ p < cardCount st c0.listId)
            | none => true
          else
            match data.position with
            | some p => decide (0 ≤ p ∧ p ≤ cardCount st dst)
            | none => true
        | none =>
          match data.position with
          | some p => decide (0 ≤ p ∧ p < cardCount st c0.listId)
          | none => true
  | .delete _ => true

/-- Every operation of the sequence is in range for the state it runs in. -/
def validCardOps (st : List Card) : List CardOp → Bool
  | [] => true
  | op :: ops => cardOpInRange st op && validCardOps (applyCardOp st op) ops

/-- One mutation of the lists table, routed through `ListService`. -/
inductive ListOp where
  | create (newId : Nat) (data : CreateListData)
  | update (listId : Nat) (data : UpdateListData)
  | delete (listId : Nat)
  deriving DecidableEq, Repr

/-- Apply one list operation. -/
def applyListOp (st : List ListRow) : ListOp → List ListRow
  | .create newId data => (ListService.create st newId data).2
  | .update listId data => (ListService.update st listId data).getD st
  | .delete listId => (ListService.delete st listId).2

/-- Apply a sequence of list operations in order. -/
def applyListOps (st : List ListRow) (ops : List ListOp) : List ListRow :=
  ops.foldl applyListOp st

/-- In-range side condition for a list operation. -/
def listOpInRange (st : List ListRow) : ListOp → Bool
  | .create newId data =>
      decide (newId ∉ st.map fun l => l.id) &&
      (match data.position with
       | some p => decide (0 ≤ p ∧ p ≤ listCount st data.boardId)
       | none => true)
  | .update listId data =>
      match st.find? fun l => l.id = listId with
      | none => true
      | some l0 =>
        match data.position with
        | some p => decide (0 ≤ p ∧ p < listCount st l0.boardId)
        | none => true
  | .delete _ => true

/-- Every list operation of the sequence is in range for its state. -/
def validListOps (st : List ListRow) : List ListOp → Bool
  | [] => true
  | op :: ops => listOpInRange st op && validListOps (applyListOp st op) ops

/-- Since `ListService` runs the same algorithm as `CardService` with `boardId`
in the container role; this projection lets the list-table results be
derived from the card-table ones. -/
def ListRow.asCard (l : ListRow) : Card :=
  { id := l.id, listId := l.boardId, position := l.position }

/-- The card operation simulating a list operation under
`ListRow.asCard`. -/
def ListOp.toCardOp : ListOp → CardOp
  | .create newId data =>
      .create newId { listId := data.boardId, position := data.position }
  | .update listId data =>
      .update listId { listId := none, position := data.position }
  | .delete listId => .delete listId

/-- The per-position effect of one bulk shift: positions in
`[lo, hi]` (or `[lo, ∞)` when `hi = none`) move by `d`. -/
def posShift (lo : Int) (hi : Option Int) (d : Int) (x : Int) : Int :=
  if lo ≤ x ∧ leHi x hi then x + d else x

/-- Well-formed cards table: unique primary keys and every container
dense. -/
def CardsWF (st : List Card) : Prop :=
  uniqueCardIds st ∧ ∀ lid, densePositions (childCardPositions st lid)

/-- Well-formed lists table. -/
def ListsWF (st : List ListRow) : Prop :=
  uniqueListIds st ∧ ∀ bid, densePositions (childListPositions st bid)

-- Sanity checks on small concrete inputs.
example : densePositions [2, 0, 1] := by decide
example : ¬ densePositions [0, 2] := by decide
example :
    (CardService.create [⟨1, 7, 0⟩, ⟨2, 7, 1⟩] 3 ⟨7, none⟩).1.position = 2 := by
  decide
example :
    (CardService.create [⟨1, 7, 0⟩, ⟨2, 7, 1⟩, ⟨3, 7, 2⟩] 4 ⟨7, some 1⟩).2 =
      [⟨1, 7, 0⟩, ⟨2, 7, 2⟩, ⟨3, 7, 3⟩, ⟨4, 7, 1⟩] := by decide
example :
    CardService.update [⟨1, 7, 0⟩, ⟨2, 7, 1⟩, ⟨3, 7, 2⟩, ⟨4, 7, 3⟩] 1
        { position := some 2 } =
      some [⟨1, 7, 2⟩, ⟨2, 7, 0⟩, ⟨3, 7, 1⟩, ⟨4, 7, 3⟩] := by decide
example :
    CardService.delete [⟨1, 7, 0⟩, ⟨2, 7, 1⟩, ⟨3, 7, 2⟩] 2 =
      (true, [⟨1, 7, 0⟩, ⟨3, 7, 1⟩]) := by decide

/-! ## Toolkit lemmas -/

theorem int_max?_eq_some_iff (l : List Int) (m : Int) :
    l.max? = some m ↔ (m ∈ l ∧ ∀ a ∈ l, a ≤ m) := by
  haveI : Std.Antisymm (fun x1 x2 : Int => x1 ≤ x2) :=
    ⟨@fun a b h h' => le_antisymm h h'⟩
  exact List.max?_eq_some_iff (fun a => le_refl a) (fun a b => max_choice a b)
    (fun a b c => max_le_iff)

theorem intRange_succ (n : Nat) : intRange (n + 1) = intRange n ++ [(n : Int)] := by
  unfold intRange
  rw [List.range_succ, List.map_append]
  rfl

theorem intRange_length (n : Nat) : (intRange n).length = n := by
  simp [intRange]

theorem mem_intRange {n : Nat} {x : Int} : x ∈ intRange n ↔ 0 ≤ x ∧ x < n := by
  unfold intRange
  simp only [List.mem_map, List.mem_range]
  constructor
  · rintro ⟨i, hi, rfl⟩
    simp only [Int.ofNat_eq_coe]
    omega
  · rintro ⟨h0, hn⟩
    exact ⟨x.toNat, by omega, by simp only [Int.ofNat_eq_coe]; omega⟩

theorem intRange_nodup (n : Nat) : (intRange n).Nodup :=
  (List.nodup_range n).map fun _ _ h => by
    simpa using congrArg Int.toNat h

theorem densePositions_of_perm_intRange {ps : List Int} {m : Nat}
    (h : ps.Perm (intRange m)) : densePositions ps := by
  have hl : ps.length = m := by
    simpa [intRange_length] using h.length_eq
  unfold densePositions
  rw [hl]
  exact h

theorem densePositions_perm {ps qs : List Int} (h : ps.Perm qs)
    (hd : densePositions ps) : densePositions qs :=
  densePositions_of_perm_intRange (h.symm.trans hd)

theorem childCardPositions_cons (c : Card) (st : List Card) (lid : Nat) :
    childCardPositions (c :: st) lid =
      if c.listId = lid then c.position :: childCardPositions st lid
      else childCardPositions st lid := by
  by_cases h : c.listId = lid <;> simp [childCardPositions, List.filter_cons, h]

theorem childCardPositions_append (s t : List Card) (lid : Nat) :
    childCardPositions (s ++ t) lid =
      childCardPositions s lid ++ childCardPositions t lid := by
  simp [childCardPositions, List.filter_append]

theorem childCardPositions_perm {st st' : List Card} (h : st.Perm st')
    (lid : Nat) : (childCardPositions st lid).Perm (childCardPositions st' lid) :=
  (h.filter _).map _

theorem childCardPositions_length (st : List Card) (lid : Nat) :
    (childCardPositions st lid).length = cardCount st lid := by
  simp [childCardPositions, cardCount]

theorem bulkShiftCards_cons (c : Card) (st : List Card) (lid : Nat) (lo : Int)
    (hi : Option Int) (d : Int) :
    bulkShiftCards (c :: st) lid lo hi d =
      (if c.listId = lid ∧ lo ≤ c.position ∧ leHi c.position hi then
        { c with position := c.position + d } else c) :: bulkShiftCards st lid lo hi d :=
  rfl

theorem childCardPositions_bulkShiftCards_same (st : List Card) (lid : Nat)
    (lo : Int) (hi : Option Int) (d : Int) :
    childCardPositions (bulkShiftCards st lid lo hi d) lid =
      (childCardPositions st lid).map (posShift lo hi d) := by
  induction st with
  | nil => rfl
  | cons c st ih =>
    rw [bulkShiftCards_cons, childCardPositions_cons]
    by_cases hc : c.listId = lid
    · by_cases hp : lo ≤ c.position ∧ leHi c.position hi
      · have hcond : c.listId = lid ∧ lo ≤ c.position ∧ leHi c.position hi :=
          ⟨hc, hp⟩
        rw [if_pos hcond, childCardPositions_cons]
        simp only [hc, if_pos rfl, ih]
        simp [posShift, hp]
      · have hcond : ¬ (c.listId = lid ∧ lo ≤ c.position ∧ leHi c.position hi) :=
          fun h => hp h.2
        rw [if_neg hcond, childCardPositions_cons]
        simp only [hc, if_pos rfl, ih]
        simp [posShift, hp]
    · have hcond : ¬ (c.listId = lid ∧ lo ≤ c.position ∧ leHi c.position hi) :=
        fun h => hc h.1
      rw [if_neg hcond, childCardPositions_cons]
      simp [hc, ih]

theorem childCardPositions_bulkShiftCards_ne (st : List Card) {lid lid' : Nat}
    (h : lid' ≠ lid) (lo : Int) (hi : Option Int) (d : Int) :
    childCardPositions (bulkShiftCards st lid lo hi d) lid' =
      childCardPositions st lid' := by
  induction st with
  | nil => rfl
  | cons c st ih =>
    rw [bulkShiftCards_cons, childCardPositions_cons]
    by_cases hp : c.listId = lid ∧ lo ≤ c.position ∧ leHi c.position hi
    · have hc' : ¬ c.listId = lid' := by rw [hp.1]; exact fun e => h e.symm
      rw [if_pos hp, childCardPositions_cons]
      simp [hc', ih]
    · rw [if_neg hp, childCardPositions_cons]
      by_cases hcl : c.listId = lid' <;> simp [hcl, ih]

theorem bulkShiftCards_map_id (st : List Card) (lid : Nat) (lo : Int)
    (hi : Option Int) (d : Int) :
    (bulkShiftCards st lid lo hi d).map (fun c => c.id) = st.map fun c => c.id := by
  unfold bulkShiftCards
  rw [List.map_map]
  apply List.map_congr_left
  intro c _
  by_cases h : c.listId = lid ∧ lo ≤ c.position ∧ leHi c.position hi <;> simp [h]

theorem find?_card_id {st : List Card} {cid : Nat} {c0 : Card}
    (hf : st.find? (fun c => c.id = cid) = some c0) : c0.id = cid := by
  have := List.find?_some hf
  simpa using this

theorem perm_cons_filter_of_find? {st : List Card} {cid : Nat} {c0 : Card}
    (hu : uniqueCardIds st) (hf : st.find? (fun c => c.id = cid) = some c0) :
    st.Perm (c0 :: st.filter fun c => ¬ c.id = cid) := by
  induction st with
  | nil => simp at hf
  | cons c st ih =>
    have hu1 : c.id ∉ st.map fun x => x.id := by
      have := hu
      simp only [uniqueCardIds, List.map_cons, List.nodup_cons] at this
      exact this.1
    have hu' : uniqueCardIds st := by
      have := hu
      simp only [uniqueCardIds, List.map_cons, List.nodup_cons] at this
      exact this.2
    by_cases hc : c.id = cid
    · rw [List.find?_cons_of_pos _ (by simpa using hc)] at hf
      injection hf with hf
      subst hf
      have hrest : st.filter (fun x => ¬ x.id = cid) = st := by
        apply List.filter_eq_self.mpr
        intro a ha
        have hne : ¬ a.id = cid := by
          intro e
          apply hu1
          rw [hc, ← e]
          exact List.mem_map_of_mem (fun x => x.id) ha
        simpa using hne
      rw [List.filter_cons_of_neg (by simpa using hc), hrest]
    · rw [List.find?_cons_of_neg _ (by simpa using hc)] at hf
      have hperm := ih hu' hf
      rw [List.filter_cons_of_pos (by simpa using hc)]
      exact (hperm.cons c).trans (List.Perm.swap c0 c _)

theorem nextCardPosition_def (st : List Card) (lid : Nat) :
    nextCardPosition st lid =
      match (childCardPositions st lid).max? with
      | some m => m + 1
      | none => 0 :=
  rfl

theorem perm_range_insert :
    ∀ (n : Nat) (p : Int), 0 ≤ p → p ≤ (n : Int) →
      (p :: (intRange n).map (posShift p none 1)).Perm (intRange (n + 1)) := by
  intro n
  induction n with
  | zero =>
    intro p h0 hn
    have hp : p = 0 := le_antisymm (by exact_mod_cast hn) h0
    subst hp
    decide
  | succ n ih =>
    intro p h0 hn
    by_cases hc : p ≤ (n : Int)
    · rw [intRange_succ n, List.map_append]
      have hmap : ([((n : Nat) : Int)]).map (posShift p none 1) = [(n : Int) + 1] := by
        simp [posShift, leHi, hc]
      rw [hmap]
      have hstep : p :: ((intRange n).map (posShift p none 1) ++ [(n : Int) + 1]) =
          (p :: (intRange n).map (posShift p none 1)) ++ [(n : Int) + 1] := rfl
      rw [hstep, intRange_succ (n + 1)]
      have hcast : (((n + 1 : Nat)) : Int) = (n : Int) + 1 := by push_cast; ring
      rw [hcast]
      exact (ih p h0 hc).append_right _
    · have hp : p = (n : Int) + 1 := by
        have : p ≤ ((n : Int) + 1) := by exact_mod_cast hn
        omega
      have hid : (intRange (n + 1)).map (posShift p none 1) = intRange (n + 1) := by
        have hpt : ∀ x ∈ intRange (n + 1), posShift p none 1 x = x := by
          intro x hx
          have hb := (mem_intRange.mp hx).2
          have : ¬ p ≤ x := by push_cast at hb; omega
          simp [posShift, leHi, this]
        calc (intRange (n + 1)).map (posShift p none 1)
            = (intRange (n + 1)).map id := List.map_congr_left hpt
          _ = intRange (n + 1) := List.map_id _
      rw [hid, intRange_succ (n + 1)]
      have hcast : (((n + 1 : Nat)) : Int) = p := by push_cast; omega
      rw [hcast]
      exact (List.perm_append_singleton p (intRange (n + 1))).symm

theorem perm_range_delete :
    ∀ (n : Nat) (dp : Int), 0 ≤ dp → dp ≤ (n : Int) →
      (((intRange (n + 1)).erase dp).map (posShift (dp + 1) none (-1))).Perm
        (intRange n) := by
  intro n
  induction n with
  | zero =>
    intro dp h0 hn
    have hp : dp = 0 := le_antisymm (by exact_mod_cast hn) h0
    subst hp
    decide
  | succ n ih =>
    intro dp h0 hn
    by_cases hc : dp ≤ (n : Int)
    · rw [intRange_succ (n + 1)]
      have hdmem : dp ∈ intRange (n + 1) := by
        rw [mem_intRange]
        constructor
        · exact h0
        · push_cast; omega
      rw [List.erase_append_left _ hdmem, List.map_append]
      have hlast : ([(((n + 1 : Nat)) : Int)]).map (posShift (dp + 1) none (-1)) =
          [(n : Int)] := by
        have hle : dp + 1 ≤ (((n + 1 : Nat)) : Int) := by push_cast; omega
        simp only [List.map_cons, List.map_nil, posShift, leHi, and_true, if_pos hle]
        congr 1
        push_cast
        ring
      rw [hlast]
      have hstep := (ih dp h0 hc).append_right [(n : Int)]
      rw [← intRange_succ n] at hstep
      exact hstep
    · have hp : dp = (n : Int) + 1 := by
        have : dp ≤ ((n : Int) + 1) := by exact_mod_cast hn
        omega
      rw [intRange_succ (n + 1)]
      have hnot : dp ∉ intRange (n + 1) := by
        rw [mem_intRange]
        push_cast
        omega
      rw [List.erase_append_right _ hnot]
      have hsing : ([(((n + 1 : Nat)) : Int)]).erase dp = [] := by
        have : (((n + 1 : Nat)) : Int) = dp := by push_cast; omega
        rw [this]
        simp
      rw [hsing, List.append_nil]
      have hid : (intRange (n + 1)).map (posShift (dp + 1) none (-1)) =
          intRange (n + 1) := by
        have hpt : ∀ x ∈ intRange (n + 1), posShift (dp + 1) none (-1) x = x := by
          intro x hx
          have hb := (mem_intRange.mp hx).2
          have : ¬ dp + 1 ≤ x := by push_cast at hb; omega
          simp [posShift, leHi, this]
        calc (intRange (n + 1)).map (posShift (dp + 1) none (-1))
            = (intRange (n + 1)).map id := List.map_congr_left hpt
          _ = intRange (n + 1) := List.map_id _
      rw [hid]

theorem perm_range_repos (n : Nat) (oldP newP : Int) (h1 : 0 ≤ oldP)
    (h2 : oldP ≤ (n : Int)) (h3 : 0 ≤ newP) (h4 : newP ≤ (n : Int)) :
    (newP :: ((intRange (n + 1)).erase oldP).map
      (fun x => posShift newP none 1 (posShift (oldP + 1) none (-1) x))).Perm
      (intRange (n + 1)) := by
  have hdel := perm_range_delete n oldP h1 h2
  have hins := perm_range_insert n newP h3 h4
  have hmm : ((intRange (n + 1)).erase oldP).map
      (fun x => posShift newP none 1 (posShift (oldP + 1) none (-1) x)) =
      (((intRange (n + 1)).erase oldP).map (posShift (oldP + 1) none (-1))).map
        (posShift newP none 1) := by
    rw [List.map_map]
    rfl
  rw [hmm]
  exact ((hdel.map (posShift newP none 1)).cons newP).trans hins

theorem posShift_forward_eq {oldP newP : Int} (h : oldP < newP) (x : Int) :
    posShift (oldP + 1) (some newP) (-1) x =
      posShift newP none 1 (posShift (oldP + 1) none (-1) x) := by
  simp only [posShift, leHi, and_true]
  split_ifs <;> omega

theorem posShift_backward_eq {oldP newP : Int} (h : newP < oldP) {x : Int}
    (hx : x ≠ oldP) :
    posShift newP (some (oldP - 1)) 1 x =
      posShift newP none 1 (posShift (oldP + 1) none (-1) x) := by
  simp only [posShift, leHi, and_true]
  split_ifs <;> omega

theorem densePositions_max? {ps : List Int} (h : densePositions ps)
    (hne : ps ≠ []) : ps.max? = some ((ps.length : Int) - 1) := by
  have hn : 0 < ps.length := List.length_pos.mpr hne
  apply (int_max?_eq_some_iff ps _).mpr
  constructor
  · rw [List.Perm.mem_iff h]
    rw [mem_intRange]
    omega
  · intro a ha
    have := mem_intRange.mp ((List.Perm.mem_iff h).mp ha)
    omega

theorem bulkShiftCards_perm {st st' : List Card} (h : st.Perm st') (lid : Nat)
    (lo : Int) (hi : Option Int) (d : Int) :
    (bulkShiftCards st lid lo hi d).Perm (bulkShiftCards st' lid lo hi d) :=
  h.map _

theorem filter_not_id_spec {st : List Card} {cid : Nat} :
    ∀ c ∈ st.filter (fun c => ¬ c.id = cid), ¬ c.id = cid := by
  intro c hc
  have := (List.mem_filter.mp hc).2
  simpa using this

theorem uniqueCardIds_filter {st : List Card} (hu : uniqueCardIds st)
    (p : Card → Bool) : uniqueCardIds (st.filter p) := by
  unfold uniqueCardIds at *
  exact ((List.filter_sublist st).map fun c => c.id).nodup hu

theorem not_id_of_ids_eq {st st' : List Card}
    (hids : st'.map (fun c => c.id) = st.map fun c => c.id) {cid : Nat}
    (h : ∀ c ∈ st, ¬ c.id = cid) : ∀ c ∈ st', ¬ c.id = cid := by
  intro c hc e
  have hmem : c.id ∈ st.map fun c => c.id := by
    rw [← hids]
    exact List.mem_map_of_mem _ hc
  obtain ⟨a, ha, hae⟩ := List.mem_map.mp hmem
  exact h a ha (hae.trans e)

theorem map_set_eq_of_not_id {rest : List Card} {cid : Nat}
    (h : ∀ c ∈ rest, ¬ c.id = cid) (f : Card → Card) :
    (rest.map fun c => if c.id = cid then f c else c) = rest := by
  calc (rest.map fun c => if c.id = cid then f c else c)
      = rest.map id := List.map_congr_left fun c hc => if_neg (h c hc)
    _ = rest := List.map_id rest

theorem applyCardSet_id (data : UpdateCardData) (c : Card) :
    (applyCardSet data c).id = c.id := rfl

theorem map_set_map_id (st : List Card) (cid : Nat) (data : UpdateCardData) :
    ((st.map fun c => if c.id = cid then applyCardSet data c else c).map
      fun c => c.id) = st.map fun c => c.id := by
  rw [List.map_map]
  apply List.map_congr_left
  intro c _
  by_cases h : c.id = cid <;> simp [h, applyCardSet]

theorem eq_c0_of_mem_id {st : List Card} {cid : Nat} {c0 : Card}
    (hu : uniqueCardIds st) (hf : st.find? (fun c => c.id = cid) = some c0) :
    ∀ a ∈ st, a.id = cid → a = c0 := by
  have hperm := perm_cons_filter_of_find? hu hf
  intro a ha he
  have hmem : a ∈ c0 :: st.filter (fun c => ¬ c.id = cid) := hperm.subset ha
  rcases List.mem_cons.mp hmem with h | h
  · exact h
  · exact absurd he (filter_not_id_spec a h)

theorem nextCardPosition_eq_count {st : List Card} {lid : Nat}
    (h : densePositions (childCardPositions st lid)) :
    nextCardPosition st lid = (cardCount st lid : Int) := by
  rw [nextCardPosition_def]
  rcases eq_or_ne (childCardPositions st lid) [] with he | hne
  · have h0 : cardCount st lid = 0 := by
      rw [← childCardPositions_length, he]
      rfl
    rw [he, h0]
    rfl
  · rw [densePositions_max? h hne]
    show ((childCardPositions st lid).length : Int) - 1 + 1 = (cardCount st lid : Int)
    rw [childCardPositions_length]
    omega

theorem CardService.update_of_find?_none {st : List Card} {cid : Nat}
    (data : UpdateCardData) (hf : st.find? (fun c => c.id = cid) = none) :
    CardService.update st cid data = none := by
  unfold CardService.update
  rw [hf]

theorem CardService.update_cross_auto {st : List Card} {cid : Nat} {c0 : Card}
    {dst : Nat} (hf : st.find? (fun c => c.id = cid) = some c0)
    (hne : dst ≠ c0.listId) :
    CardService.update st cid { listId := some dst, position := none } =
      some ((bulkShiftCards st c0.listId (c0.position + 1) none (-1)).map fun c =>
        if c.id = cid then
          applyCardSet
            { listId := some dst,
              position := some (nextCardPosition
                (bulkShiftCards st c0.listId (c0.position + 1) none (-1)) dst) } c
        else c) := by
  unfold CardService.update
  rw [hf]
  simp [hne]

theorem CardService.update_cross_explicit {st : List Card} {cid : Nat}
    {c0 : Card} {dst : Nat} {p : Int}
    (hf : st.find? (fun c => c.id = cid) = some c0) (hne : dst ≠ c0.listId) :
    CardService.update st cid { listId := some dst, position := some p } =
      some ((bulkShiftCards
          (bulkShiftCards st c0.listId (c0.position + 1) none (-1)) dst p none 1).map
        fun c =>
          if c.id = cid then
            applyCardSet { listId := some dst, position := some p } c
          else c) := by
  unfold CardService.update
  rw [hf]
  simp [hne]

theorem CardService.update_same_no_listid {st : List Card} {cid : Nat}
    {c0 : Card} {p : Int} (hf : st.find? (fun c => c.id = cid) = some c0) :
    CardService.update st cid { listId := none, position := some p } =
      some ((sameListShiftCards st c0.listId c0.position p).map fun c =>
        if c.id = cid then
          applyCardSet { listId := none, position := some p } c
        else c) := by
  unfold CardService.update
  rw [hf]

theorem CardService.update_same_eq_listid {st : List Card} {cid : Nat}
    {c0 : Card} {p : Int} (hf : st.find? (fun c => c.id = cid) = some c0) :
    CardService.update st cid { listId := some c0.listId, position := some p } =
      some ((sameListShiftCards st c0.listId c0.position p).map fun c =>
        if c.id = cid then
          applyCardSet { listId := some c0.listId, position := some p } c
        else c) := by
  unfold CardService.update
  rw [hf]
  simp

theorem CardService.update_no_fields {st : List Card} {cid : Nat} {c0 : Card}
    (hf : st.find? (fun c => c.id = cid) = some c0) :
    CardService.update st cid { listId := none, position := none } =
      some (st.map fun c =>
        if c.id = cid then
          applyCardSet { listId := none, position := none } c
        else c) := by
  unfold CardService.update
  rw [hf]

theorem CardService.update_eq_listid_no_pos {st : List Card} {cid : Nat}
    {c0 : Card} (hf : st.find? (fun c => c.id = cid) = some c0) :
    CardService.update st cid { listId := some c0.listId, position := none } =
      some (st.map fun c =>
        if c.id = cid then
          applyCardSet { listId := some c0.listId, position := none } c
        else c) := by
  unfold CardService.update
  rw [hf]
  simp

theorem applyCardSet_none_none (c : Card) :
    applyCardSet { listId := none, position := none } c = c := rfl

theorem childCardPositions_nil (lid : Nat) : childCardPositions [] lid = [] := rfl

theorem child_perm_intRange {st : List Card} {lid : Nat}
    (hd : densePositions (childCardPositions st lid)) :
    (childCardPositions st lid).Perm (intRange (cardCount st lid)) := by
  have := hd
  unfold densePositions at this
  rwa [childCardPositions_length] at this

theorem child_decomp_same {st : List Card} {cid : Nat} {c0 : Card}
    (hu : uniqueCardIds st) (hf : st.find? (fun c => c.id = cid) = some c0) :
    (childCardPositions st c0.listId).Perm
      (c0.position ::
        childCardPositions (st.filter fun c => ¬ c.id = cid) c0.listId) := by
  have hperm := childCardPositions_perm (perm_cons_filter_of_find? hu hf) c0.listId
  rwa [childCardPositions_cons, if_pos rfl] at hperm

theorem child_decomp_ne {st : List Card} {cid : Nat} {c0 : Card}
    (hu : uniqueCardIds st) (hf : st.find? (fun c => c.id = cid) = some c0)
    {lid : Nat} (hl : ¬ c0.listId = lid) :
    (childCardPositions st lid).Perm
      (childCardPositions (st.filter fun c => ¬ c.id = cid) lid) := by
  have hperm := childCardPositions_perm (perm_cons_filter_of_find? hu hf) lid
  rwa [childCardPositions_cons, if_neg hl] at hperm

theorem child_rest_perm_erase {st : List Card} {cid : Nat} {c0 : Card}
    (hu : uniqueCardIds st) (hf : st.find? (fun c => c.id = cid) = some c0)
    (hd : densePositions (childCardPositions st c0.listId)) :
    c0.position ∈ intRange (cardCount st c0.listId) ∧
      (childCardPositions (st.filter fun c => ¬ c.id = cid) c0.listId).Perm
        ((intRange (cardCount st c0.listId)).erase c0.position) := by
  have hcons := (child_decomp_same hu hf).symm.trans (child_perm_intRange hd)
  exact List.cons_perm_iff_perm_erase.mp hcons

theorem CardService.create_preserves_wf {st : List Card} {newId : Nat}
    {data : CreateCardData} (hwf : CardsWF st)
    (hfresh : newId ∉ st.map fun c => c.id)
    (hpos : ∀ p ∈ data.position, 0 ≤ p ∧ p ≤ (cardCount st data.listId : Int)) :
    CardsWF (CardService.create st newId data).2 := by
  obtain ⟨hu, hd⟩ := hwf
  cases hp : data.position with
  | none =>
    have hres : (CardService.create st newId data).2 =
        st ++ [{ id := newId, listId := data.listId,
                 position := nextCardPosition st data.listId }] := by
      simp [CardService.create, hp]
    rw [hres]
    constructor
    · unfold uniqueCardIds
      rw [List.map_append, List.nodup_append]
      refine ⟨hu, List.nodup_singleton _, ?_⟩
      intro a ha hb
      simp only [List.map_cons, List.map_nil, List.mem_singleton] at hb
      subst hb
      exact hfresh ha
    · intro lid
      rw [childCardPositions_append]
      by_cases hl : data.listId = lid
      · subst hl
        have hq : nextCardPosition st data.listId =
            (cardCount st data.listId : Int) := nextCardPosition_eq_count (hd _)
        have hone : childCardPositions
            [{ id := newId, listId := data.listId,
               position := nextCardPosition st data.listId }] data.listId =
            [(cardCount st data.listId : Int)] := by
          rw [childCardPositions_cons, if_pos rfl, childCardPositions_nil, hq]
        rw [hone]
        apply densePositions_of_perm_intRange (m := cardCount st data.listId + 1)
        have hstep :=
          (child_perm_intRange (hd data.listId)).append_right
            [(cardCount st data.listId : Int)]
        rwa [← intRange_succ] at hstep
      · have hone : childCardPositions
            [{ id := newId, listId := data.listId,
               position := nextCardPosition st data.listId }] lid = [] := by
          rw [childCardPositions_cons, if_neg hl, childCardPositions_nil]
        rw [hone, List.append_nil]
        exact hd lid
  | some p =>
    obtain ⟨hp0, hpn⟩ := hpos p (by rw [hp]; rfl)
    have hres : (CardService.create st newId data).2 =
        bulkShiftCards st data.listId p none 1 ++
          [{ id := newId, listId := data.listId, position := p }] := by
      simp [CardService.create, hp]
    rw [hres]
    constructor
    · unfold uniqueCardIds
      rw [List.map_append, List.nodup_append, bulkShiftCards_map_id]
      refine ⟨hu, List.nodup_singleton _, ?_⟩
      intro a ha hb
      simp only [List.map_cons, List.map_nil, List.mem_singleton] at hb
      subst hb
      exact hfresh ha
    · intro lid
      rw [childCardPositions_append]
      by_cases hl : data.listId = lid
      · subst hl
        have hone : childCardPositions
            [{ id := newId, listId := data.listId, position := p }] data.listId =
            [p] := by
          rw [childCardPositions_cons, if_pos rfl, childCardPositions_nil]
        rw [hone, childCardPositions_bulkShiftCards_same]
        apply densePositions_of_perm_intRange (m := cardCount st data.listId + 1)
        have hmap := (child_perm_intRange (hd data.listId)).map (posShift p none 1)
        have happ := hmap.append_right [p]
        refine happ.trans ?_
        have hsing := List.perm_append_singleton p
          ((intRange (cardCount st data.listId)).map (posShift p none 1))
        exact hsing.trans (perm_range_insert (cardCount st data.listId) p hp0 hpn)
      · have hone : childCardPositions
            [{ id := newId, listId := data.listId, position := p }] lid = [] := by
          rw [childCardPositions_cons, if_neg hl, childCardPositions_nil]
        rw [hone, List.append_nil,
          childCardPositions_bulkShiftCards_ne st (fun e => hl e.symm)]
        exact hd lid

theorem sameListShiftCards_map_id (st : List Card) (lid : Nat) (oldP newP : Int) :
    (sameListShiftCards st lid oldP newP).map (fun c => c.id) =
      st.map fun c => c.id := by
  unfold sameListShiftCards
  split_ifs <;> first | rfl | rw [bulkShiftCards_map_id]

theorem map_set_self {st : List Card} {cid : Nat} {c0 : Card}
    (hu : uniqueCardIds st) (hf : st.find? (fun c => c.id = cid) = some c0)
    {data : UpdateCardData} (hfix : applyCardSet data c0 = c0) :
    (st.map fun c => if c.id = cid then applyCardSet data c else c) = st := by
  calc (st.map fun c => if c.id = cid then applyCardSet data c else c)
      = st.map id := by
        apply List.map_congr_left
        intro c hc
        by_cases h : c.id = cid
        · have hc0 : c = c0 := eq_c0_of_mem_id hu hf c hc h
          rw [if_pos h, hc0, hfix]
          rfl
        · rw [if_neg h]
          rfl
    _ = st := List.map_id st

theorem bulk_cons_c0 {st : List Card} {cid : Nat} {c0 : Card}
    (hu : uniqueCardIds st) (hf : st.find? (fun c => c.id = cid) = some c0)
    {lid : Nat} {lo : Int} {hi : Option Int} {d : Int}
    (hc0 : ¬ (c0.listId = lid ∧ lo ≤ c0.position ∧ leHi c0.position hi)) :
    (bulkShiftCards st lid lo hi d).Perm
      (c0 :: bulkShiftCards (st.filter fun c => ¬ c.id = cid) lid lo hi d) := by
  have h := bulkShiftCards_perm (perm_cons_filter_of_find? hu hf) lid lo hi d
  rw [bulkShiftCards_cons, if_neg hc0] at h
  exact h

theorem bulk_rest_not_id {st : List Card} {cid : Nat} (lid : Nat) (lo : Int)
    (hi : Option Int) (d : Int) :
    ∀ c ∈ bulkShiftCards (st.filter fun c => ¬ c.id = cid) lid lo hi d,
      ¬ c.id = cid :=
  not_id_of_ids_eq (bulkShiftCards_map_id _ lid lo hi d) filter_not_id_spec

theorem map_finalf_cons (data : UpdateCardData) {cid : Nat} (c0 : Card)
    {Y : List Card} (hY : ∀ c ∈ Y, ¬ c.id = cid) (hc0 : c0.id = cid) :
    ((c0 :: Y).map fun c => if c.id = cid then applyCardSet data c else c) =
      applyCardSet data c0 :: Y := by
  rw [List.map_cons, if_pos hc0, map_set_eq_of_not_id hY]

theorem CardService.update_repos_preserves_wf {st : List Card} {cid : Nat}
    {c0 : Card} {p : Int} {data : UpdateCardData}
    (hwf : CardsWF st) (hf : st.find? (fun c => c.id = cid) = some c0)
    (hdata : data.position = some p)
    (hlid : data.listId = none ∨ data.listId = some c0.listId)
    (hp0 : 0 ≤ p) (hpn : p < (cardCount st c0.listId : Int)) :
    CardsWF ((sameListShiftCards st c0.listId c0.position p).map fun c =>
      if c.id = cid then applyCardSet data c else c) := by
  obtain ⟨hu, hd⟩ := hwf
  have hc0id : c0.id = cid := find?_card_id hf
  have hset : applyCardSet data c0 = { c0 with position := p } := by
    rcases hlid with h | h <;> cases c0 <;> simp [applyCardSet, hdata, h]
  obtain ⟨hmem, hrest⟩ := child_rest_perm_erase hu hf (hd c0.listId)
  obtain ⟨ho0, holt⟩ := mem_intRange.mp hmem
  obtain ⟨m, hm⟩ : ∃ m, cardCount st c0.listId = m + 1 :=
    ⟨cardCount st c0.listId - 1, by omega⟩
  rw [hm] at hrest holt hpn
  constructor
  · unfold uniqueCardIds
    rw [map_set_map_id, sameListShiftCards_map_id]
    exact hu
  · rcases lt_trichotomy c0.position p with hdir | heq | hdir
    · -- forward move: shift [old+1, p] by -1
      have hne : c0.position ≠ p := ne_of_lt hdir
      have hshift : sameListShiftCards st c0.listId c0.position p =
          bulkShiftCards st c0.listId (c0.position + 1) (some p) (-1) := by
        unfold sameListShiftCards
        rw [if_pos hne, if_pos hdir]
      rw [hshift]
      have hcons : (bulkShiftCards st c0.listId (c0.position + 1) (some p)
          (-1)).Perm (c0 :: bulkShiftCards (st.filter fun c => ¬ c.id = cid)
            c0.listId (c0.position + 1) (some p) (-1)) :=
        bulk_cons_c0 hu hf (fun h => absurd h.2.1 (by omega))
      have hmapped : ((bulkShiftCards st c0.listId (c0.position + 1) (some p)
          (-1)).map fun c => if c.id = cid then applyCardSet data c else c).Perm
          ({ c0 with position := p } ::
            bulkShiftCards (st.filter fun c => ¬ c.id = cid) c0.listId
              (c0.position + 1) (some p) (-1)) := by
        have h := hcons.map fun c => if c.id = cid then applyCardSet data c else c
        rwa [map_finalf_cons data c0 (bulk_rest_not_id _ _ _ _) hc0id, hset] at h
      intro lid
      have hdense := childCardPositions_perm hmapped lid
      by_cases hl : c0.listId = lid
      · subst hl
        rw [childCardPositions_cons, if_pos rfl,
          childCardPositions_bulkShiftCards_same] at hdense
        apply densePositions_of_perm_intRange (m := m + 1)
        refine hdense.trans ?_
        have heqmap : ((intRange (m + 1)).erase c0.position).map
            (posShift (c0.position + 1) (some p) (-1)) =
            ((intRange (m + 1)).erase c0.position).map fun x =>
              posShift p none 1 (posShift (c0.position + 1) none (-1) x) :=
          List.map_congr_left fun x _ => posShift_forward_eq hdir x
        have hchain : ((childCardPositions
            (st.filter fun c => ¬ c.id = cid) c0.listId).map
              (posShift (c0.position + 1) (some p) (-1))).Perm
            (((intRange (m + 1)).erase c0.position).map fun x =>
              posShift p none 1 (posShift (c0.position + 1) none (-1) x)) := by
          refine (hrest.map _).trans ?_
          rw [heqmap]
        refine (hchain.cons p).trans ?_
        exact perm_range_repos m c0.position p ho0 (by push_cast at holt; omega)
          hp0 (by push_cast at hpn; omega)
      · rw [childCardPositions_cons, if_neg hl,
          childCardPositions_bulkShiftCards_ne _ (fun e => hl e.symm)] at hdense
        exact densePositions_perm hdense.symm
          (densePositions_perm (child_decomp_ne hu hf hl) (hd lid))
    · -- no-op: position unchanged
      have hshift : sameListShiftCards st c0.listId c0.position p = st := by
        unfold sameListShiftCards
        rw [if_neg (fun h => h heq)]
      have hfix : applyCardSet data c0 = c0 := by
        rw [hset, ← heq]
      rw [hshift, map_set_self hu hf hfix]
      exact hd
    · -- backward move: shift [p, old-1] by +1
      have hne : c0.position ≠ p := ne_of_gt hdir
      have hgt : ¬ p > c0.position := by omega
      have hshift : sameListShiftCards st c0.listId c0.position p =
          bulkShiftCards st c0.listId p (some (c0.position - 1)) 1 := by
        unfold sameListShiftCards
        rw [if_pos hne, if_neg hgt, if_pos hdir]
      rw [hshift]
      have hcons : (bulkShiftCards st c0.listId p (some (c0.position - 1))
          1).Perm (c0 :: bulkShiftCards (st.filter fun c => ¬ c.id = cid)
            c0.listId p (some (c0.position - 1)) 1) :=
        bulk_cons_c0 hu hf (fun h => by
          have := h.2.2
          simp only [leHi] at this
          omega)
      have hmapped : ((bulkShiftCards st c0.listId p (some (c0.position - 1))
          1).map fun c => if c.id = cid then applyCardSet data c else c).Perm
          ({ c0 with position := p } ::
            bulkShiftCards (st.filter fun c => ¬ c.id = cid) c0.listId
              p (some (c0.position - 1)) 1) := by
        have h := hcons.map fun c => if c.id = cid then applyCardSet data c else c
        rwa [map_finalf_cons data c0 (bulk_rest_not_id _ _ _ _) hc0id, hset] at h
      intro lid
      have hdense := childCardPositions_perm hmapped lid
      by_cases hl : c0.listId = lid
      · subst hl
        rw [childCardPositions_cons, if_pos rfl,
          childCardPositions_bulkShiftCards_same] at hdense
        apply densePositions_of_perm_intRange (m := m + 1)
        refine hdense.trans ?_
        have heqmap : ((intRange (m + 1)).erase c0.position).map
            (posShift p (some (c0.position - 1)) 1) =
            ((intRange (m + 1)).erase c0.position).map fun x =>
              posShift p none 1 (posShift (c0.position + 1) none (-1) x) :=
          List.map_congr_left fun x hx =>
            posShift_backward_eq hdir
              (((intRange_nodup (m + 1)).mem_erase_iff.mp hx).1)
        have hchain : ((childCardPositions
            (st.filter fun c => ¬ c.id = cid) c0.listId).map
              (posShift p (some (c0.position - 1)) 1)).Perm
            (((intRange (m + 1)).erase c0.position).map fun x =>
              posShift p none 1 (posShift (c0.position + 1) none (-1) x)) := by
          refine (hrest.map _).trans ?_
          rw [heqmap]
        refine (hchain.cons p).trans ?_
        exact perm_range_repos m c0.position p ho0 (by push_cast at holt; omega)
          hp0 (by push_cast at hpn; omega)
      · rw [childCardPositions_cons, if_neg hl,
          childCardPositions_bulkShiftCards_ne _ (fun e => hl e.symm)] at hdense
        exact densePositions_perm hdense.symm
          (densePositions_perm (child_decomp_ne hu hf hl) (hd lid))

theorem CardService.update_cross_explicit_preserves_wf {st : List Card}
    {cid : Nat} {c0 : Card} {dst : Nat} {p : Int} (hwf : CardsWF st)
    (hf : st.find? (fun c => c.id = cid) = some c0) (hne : dst ≠ c0.listId)
    (hp0 : 0 ≤ p) (hpm : p ≤ (cardCount st dst : Int)) :
    CardsWF ((bulkShiftCards
        (bulkShiftCards st c0.listId (c0.position + 1) none (-1)) dst p none
        1).map fun c =>
      if c.id = cid then
        applyCardSet { listId := some dst, position := some p } c
      else c) := by
  obtain ⟨hu, hd⟩ := hwf
  have hc0id : c0.id = cid := find?_card_id hf
  obtain ⟨hmem, hrest⟩ := child_rest_perm_erase hu hf (hd c0.listId)
  obtain ⟨ho0, holt⟩ := mem_intRange.mp hmem
  obtain ⟨m, hm⟩ : ∃ m, cardCount st c0.listId = m + 1 :=
    ⟨cardCount st c0.listId - 1, by omega⟩
  rw [hm] at hrest holt
  have hlsrc : ¬ c0.listId = dst := fun e => hne e.symm
  have hcons1 : (bulkShiftCards st c0.listId (c0.position + 1) none (-1)).Perm
      (c0 :: bulkShiftCards (st.filter fun c => ¬ c.id = cid) c0.listId
        (c0.position + 1) none (-1)) :=
    bulk_cons_c0 hu hf (fun h => absurd h.2.1 (by omega))
  have hcons2 : (bulkShiftCards
      (bulkShiftCards st c0.listId (c0.position + 1) none (-1)) dst p none
      1).Perm (c0 :: bulkShiftCards
        (bulkShiftCards (st.filter fun c => ¬ c.id = cid) c0.listId
          (c0.position + 1) none (-1)) dst p none 1) := by
    have h := bulkShiftCards_perm hcons1 dst p none 1
    rwa [bulkShiftCards_cons, if_neg (fun h' => hne h'.1.symm)] at h
  have hnotid : ∀ c ∈ bulkShiftCards
      (bulkShiftCards (st.filter fun c => ¬ c.id = cid) c0.listId
        (c0.position + 1) none (-1)) dst p none 1, ¬ c.id = cid :=
    not_id_of_ids_eq
      (by rw [bulkShiftCards_map_id, bulkShiftCards_map_id]) filter_not_id_spec
  have hset : applyCardSet { listId := some dst, position := some p } c0 =
      { c0 with listId := dst, position := p } := rfl
  have hmapped : ((bulkShiftCards
      (bulkShiftCards st c0.listId (c0.position + 1) none (-1)) dst p none
      1).map fun c =>
        if c.id = cid then
          applyCardSet { listId := some dst, position := some p } c
        else c).Perm
      ({ c0 with listId := dst, position := p } :: bulkShiftCards
        (bulkShiftCards (st.filter fun c => ¬ c.id = cid) c0.listId
          (c0.position + 1) none (-1)) dst p none 1) := by
    have h := hcons2.map fun c =>
      if c.id = cid then
        applyCardSet { listId := some dst, position := some p } c
      else c
    rwa [map_finalf_cons _ c0 hnotid hc0id, hset] at h
  constructor
  · unfold uniqueCardIds
    rw [map_set_map_id, bulkShiftCards_map_id, bulkShiftCards_map_id]
    exact hu
  · intro lid
    have hdense := childCardPositions_perm hmapped lid
    by_cases hl2 : dst = lid
    · subst hl2
      rw [childCardPositions_cons, if_pos rfl,
        childCardPositions_bulkShiftCards_same,
        childCardPositions_bulkShiftCards_ne _ hne] at hdense
      have hsrcperm : (childCardPositions (st.filter fun c => ¬ c.id = cid)
          dst).Perm (intRange (cardCount st dst)) :=
        (child_decomp_ne hu hf hlsrc).symm.trans (child_perm_intRange (hd dst))
      apply densePositions_of_perm_intRange (m := cardCount st dst + 1)
      refine hdense.trans ?_
      refine ((hsrcperm.map (posShift p none 1)).cons p).trans ?_
      exact perm_range_insert (cardCount st dst) p hp0 hpm
    · by_cases hl1 : c0.listId = lid
      · subst hl1
        rw [childCardPositions_cons,
          if_neg (fun e => hl2 e),
          childCardPositions_bulkShiftCards_ne _ (fun e => hl2 e.symm),
          childCardPositions_bulkShiftCards_same] at hdense
        apply densePositions_of_perm_intRange (m := m)
        refine hdense.trans ?_
        refine (hrest.map _).trans ?_
        exact perm_range_delete m c0.position ho0 (by push_cast at holt; omega)
      · rw [childCardPositions_cons, if_neg (fun e => hl2 e),
          childCardPositions_bulkShiftCards_ne _ (fun e => hl2 e.symm),
          childCardPositions_bulkShiftCards_ne _ (fun e => hl1 e.symm)]
          at hdense
        exact densePositions_perm hdense.symm
          (densePositions_perm (child_decomp_ne hu hf hl1) (hd lid))

theorem CardService.update_cross_auto_preserves_wf {st : List Card}
    {cid : Nat} {c0 : Card} {dst : Nat} (hwf : CardsWF st)
    (hf : st.find? (fun c => c.id = cid) = some c0) (hne : dst ≠ c0.listId) :
    CardsWF ((bulkShiftCards st c0.listId (c0.position + 1) none (-1)).map
      fun c =>
        if c.id = cid then
          applyCardSet
            { listId := some dst,
              position := some (nextCardPosition
                (bulkShiftCards st c0.listId (c0.position + 1) none (-1))
                dst) } c
        else c) := by
  obtain ⟨hu, hd⟩ := hwf
  have hc0id : c0.id = cid := find?_card_id hf
  obtain ⟨hmem, hrest⟩ := child_rest_perm_erase hu hf (hd c0.listId)
  obtain ⟨ho0, holt⟩ := mem_intRange.mp hmem
  obtain ⟨m, hm⟩ : ∃ m, cardCount st c0.listId = m + 1 :=
    ⟨cardCount st c0.listId - 1, by omega⟩
  rw [hm] at hrest holt
  have hlsrc : ¬ c0.listId = dst := fun e => hne e.symm
  have hchild_eq : childCardPositions
      (bulkShiftCards st c0.listId (c0.position + 1) none (-1)) dst =
      childCardPositions st dst :=
    childCardPositions_bulkShiftCards_ne st hne _ _ _
  have hq : nextCardPosition
      (bulkShiftCards st c0.listId (c0.position + 1) none (-1)) dst =
      (cardCount st dst : Int) := by
    have hdense1 : densePositions (childCardPositions
        (bulkShiftCards st c0.listId (c0.position + 1) none (-1)) dst) := by
      rw [hchild_eq]
      exact hd dst
    have h := nextCardPosition_eq_count hdense1
    have hcount : cardCount
        (bulkShiftCards st c0.listId (c0.position + 1) none (-1)) dst =
        cardCount st dst := by
      rw [← childCardPositions_length, hchild_eq, childCardPositions_length]
    rwa [hcount] at h
  have hcons1 : (bulkShiftCards st c0.listId (c0.position + 1) none (-1)).Perm
      (c0 :: bulkShiftCards (st.filter fun c => ¬ c.id = cid) c0.listId
        (c0.position + 1) none (-1)) :=
    bulk_cons_c0 hu hf (fun h => absurd h.2.1 (by omega))
  have hnotid : ∀ c ∈ bulkShiftCards (st.filter fun c => ¬ c.id = cid)
      c0.listId (c0.position + 1) none (-1), ¬ c.id = cid :=
    bulk_rest_not_id _ _ _ _
  have hmapped : ((bulkShiftCards st c0.listId (c0.position + 1) none
      (-1)).map fun c =>
        if c.id = cid then
          applyCardSet
            { listId := some dst,
              position := some (nextCardPosition
                (bulkShiftCards st c0.listId (c0.position + 1) none (-1))
                dst) } c
        else c).Perm
      ({ c0 with listId := dst, position := nextCardPosition (bulkShiftCards st c0.listId (c0.position + 1) none (-1)) dst } ::
        bulkShiftCards (st.filter fun c => ¬ c.id = cid) c0.listId
          (c0.position + 1) none (-1)) := by
    have hset : applyCardSet
        { listId := some dst,
          position := some (nextCardPosition
            (bulkShiftCards st c0.listId (c0.position + 1) none (-1)) dst) }
        c0 =
        { c0 with listId := dst, position := nextCardPosition (bulkShiftCards st c0.listId (c0.position + 1) none (-1)) dst } :=
      rfl
    have h := hcons1.map fun c =>
      if c.id = cid then
        applyCardSet
          { listId := some dst,
            position := some (nextCardPosition
              (bulkShiftCards st c0.listId (c0.position + 1) none (-1))
              dst) } c
      else c
    rwa [map_finalf_cons _ c0 hnotid hc0id, hset] at h
  constructor
  · unfold uniqueCardIds
    rw [map_set_map_id, bulkShiftCards_map_id]
    exact hu
  · intro lid
    have hdense := childCardPositions_perm hmapped lid
    by_cases hl2 : dst = lid
    · subst hl2
      rw [childCardPositions_cons, if_pos rfl,
        childCardPositions_bulkShiftCards_ne _ hne] at hdense
      have hsrcperm : (childCardPositions (st.filter fun c => ¬ c.id = cid)
          dst).Perm (intRange (cardCount st dst)) :=
        (child_decomp_ne hu hf hlsrc).symm.trans (child_perm_intRange (hd dst))
      apply densePositions_of_perm_intRange (m := cardCount st dst + 1)
      refine hdense.trans ?_
      refine ((hsrcperm).cons _).trans ?_
      rw [hq, intRange_succ]
      exact (List.perm_append_singleton _ _).symm
    · by_cases hl1 : c0.listId = lid
      · subst hl1
        rw [childCardPositions_cons, if_neg (fun e => hl2 e),
          childCardPositions_bulkShiftCards_same] at hdense
        apply densePositions_of_perm_intRange (m := m)
        refine hdense.trans ?_
        refine (hrest.map _).trans ?_
        exact perm_range_delete m c0.position ho0 (by push_cast at holt; omega)
      · rw [childCardPositions_cons, if_neg (fun e => hl2 e),
          childCardPositions_bulkShiftCards_ne _ (fun e => hl1 e.symm)]
          at hdense
        exact densePositions_perm hdense.symm
          (densePositions_perm (child_decomp_ne hu hf hl1) (hd lid))

theorem applyCardSet_only_listid_fix (c0 : Card) :
    applyCardSet { listId := some c0.listId, position := none } c0 = c0 := by
  cases c0
  rfl

theorem CardService.delete_preserves_wf {st : List Card} {cid : Nat}
    (hwf : CardsWF st) : CardsWF (CardService.delete st cid).2 := by
  obtain ⟨hu, hd⟩ := hwf
  cases hf : st.find? (fun c => c.id = cid) with
  | none =>
    have hres : (CardService.delete st cid).2 = st := by
      simp [CardService.delete, hf]
    rw [hres]
    exact ⟨hu, hd⟩
  | some c0 =>
    have hres : (CardService.delete st cid).2 =
        bulkShiftCards (st.filter fun c => ¬ c.id = cid) c0.listId
          (c0.position + 1) none (-1) := by
      simp [CardService.delete, hf]
    rw [hres]
    constructor
    · unfold uniqueCardIds
      rw [bulkShiftCards_map_id]
      exact uniqueCardIds_filter hu _
    · intro lid
      by_cases hl : c0.listId = lid
      · subst hl
        obtain ⟨hmem, hperm⟩ := child_rest_perm_erase hu hf (hd c0.listId)
        obtain ⟨h0, hlt⟩ := mem_intRange.mp hmem
        obtain ⟨m, hm⟩ : ∃ m, cardCount st c0.listId = m + 1 :=
          ⟨cardCount st c0.listId - 1, by omega⟩
        rw [hm] at hperm hlt
        rw [childCardPositions_bulkShiftCards_same]
        apply densePositions_of_perm_intRange (m := m)
        refine (hperm.map (posShift (c0.position + 1) none (-1))).trans ?_
        exact perm_range_delete m c0.position h0 (by push_cast at hlt; omega)
      · rw [childCardPositions_bulkShiftCards_ne _ (fun e => hl e.symm)]
        exact densePositions_perm (child_decomp_ne hu hf hl) (hd lid)

theorem applyCardOp_preserves_wf {st : List Card} {op : CardOp}
    (hwf : CardsWF st) (hr : cardOpInRange st op = true) :
    CardsWF (applyCardOp st op) := by
  cases op with
  | create newId data =>
    unfold cardOpInRange at hr
    rw [Bool.and_eq_true] at hr
    obtain ⟨hr1, hr2⟩ := hr
    have hfresh : newId ∉ st.map (fun c => c.id) := of_decide_eq_true hr1
    have hpos : ∀ p ∈ data.position,
        0 ≤ p ∧ p ≤ (cardCount st data.listId : Int) := by
      intro p hp
      cases hdp : data.position with
      | none => rw [hdp] at hp; exact absurd hp (by simp)
      | some q =>
        rw [hdp] at hp hr2
        obtain rfl : q = p := by simpa using hp
        exact of_decide_eq_true hr2
    exact CardService.create_preserves_wf hwf hfresh hpos
  | update cid data =>
    show CardsWF ((CardService.update st cid data).getD st)
    obtain ⟨dlid, dpos⟩ := data
    cases hf : st.find? (fun c => c.id = cid) with
    | none =>
      rw [CardService.update_of_find?_none _ hf]
      exact hwf
    | some c0 =>
      cases dlid with
      | none =>
        cases dpos with
        | none =>
          rw [CardService.update_no_fields hf]
          have hfix := applyCardSet_none_none c0
          rw [Option.getD_some, map_set_self hwf.1 hf hfix]
          exact hwf
        | some p =>
          simp only [cardOpInRange, hf] at hr
          have hb : 0 ≤ p ∧ p < (cardCount st c0.listId : Int) :=
            of_decide_eq_true hr
          rw [CardService.update_same_no_listid hf, Option.getD_some]
          exact CardService.update_repos_preserves_wf hwf hf rfl (Or.inl rfl)
            hb.1 hb.2
      | some dst =>
        by_cases hdst : dst = c0.listId
        · subst hdst
          cases dpos with
          | none =>
            rw [CardService.update_eq_listid_no_pos hf, Option.getD_some,
              map_set_self hwf.1 hf (applyCardSet_only_listid_fix c0)]
            exact hwf
          | some p =>
            simp only [cardOpInRange, hf, if_pos] at hr
            have hb : 0 ≤ p ∧ p < (cardCount st c0.listId : Int) :=
              of_decide_eq_true hr
            rw [CardService.update_same_eq_listid hf, Option.getD_some]
            exact CardService.update_repos_preserves_wf hwf hf rfl
              (Or.inr rfl) hb.1 hb.2
        · cases dpos with
          | none =>
            rw [CardService.update_cross_auto hf hdst, Option.getD_some]
            exact CardService.update_cross_auto_preserves_wf hwf hf hdst
          | some p =>
            simp only [cardOpInRange, hf, hdst] at hr
            have hb : 0 ≤ p ∧ p ≤ (cardCount st dst : Int) :=
              of_decide_eq_true hr
            rw [CardService.update_cross_explicit hf hdst, Option.getD_some]
            exact CardService.update_cross_explicit_preserves_wf hwf hf hdst
              hb.1 hb.2
  | delete cid => exact CardService.delete_preserves_wf hwf

theorem applyCardOps_preserves_wf :
    ∀ (ops : List CardOp) (st : List Card), CardsWF st →
      validCardOps st ops = true → CardsWF (applyCardOps st ops) := by
  intro ops
  induction ops with
  | nil =>
    intro st h _
    exact h
  | cons op ops ih =>
    intro st h hv
    unfold validCardOps at hv
    rw [Bool.and_eq_true] at hv
    exact ih _ (applyCardOp_preserves_wf h hv.1) hv.2

theorem asCard_ids (st : List ListRow) :
    (st.map ListRow.asCard).map (fun c => c.id) = st.map fun l => l.id := by
  rw [List.map_map]
  rfl

theorem asCard_childPositions (st : List ListRow) (bid : Nat) :
    childCardPositions (st.map ListRow.asCard) bid = childListPositions st bid := by
  induction st with
  | nil => rfl
  | cons l st ih =>
    rw [List.map_cons, childCardPositions_cons]
    by_cases h : l.boardId = bid
    · have h' : (ListRow.asCard l).listId = bid := h
      rw [if_pos h']
      show l.position :: childCardPositions (st.map ListRow.asCard) bid = _
      rw [ih]
      unfold childListPositions
      rw [List.filter_cons_of_pos (by simpa using h)]
      rfl
    · have h' : ¬ (ListRow.asCard l).listId = bid := h
      rw [if_neg h', ih]
      unfold childListPositions
      rw [List.filter_cons_of_neg (by simpa using h)]

theorem childListPositions_length (st : List ListRow) (bid : Nat) :
    (childListPositions st bid).length = listCount st bid := by
  simp [childListPositions, listCount]

theorem asCard_count (st : List ListRow) (bid : Nat) :
    cardCount (st.map ListRow.asCard) bid = listCount st bid := by
  rw [← childCardPositions_length, asCard_childPositions,
    childListPositions_length]

theorem asCard_bulkShift (st : List ListRow) (bid : Nat) (lo : Int)
    (hi : Option Int) (d : Int) :
    (bulkShiftLists st bid lo hi d).map ListRow.asCard =
      bulkShiftCards (st.map ListRow.asCard) bid lo hi d := by
  unfold bulkShiftLists bulkShiftCards
  rw [List.map_map, List.map_map]
  apply List.map_congr_left
  intro l _
  show ListRow.asCard (if l.boardId = bid ∧ lo ≤ l.position ∧
      leHi l.position hi then { l with position := l.position + d } else l) = _
  simp only [Function.comp_apply]
  by_cases h : l.boardId = bid ∧ lo ≤ l.position ∧ leHi l.position hi
  · have h' : (ListRow.asCard l).listId = bid ∧
        lo ≤ (ListRow.asCard l).position ∧
        leHi (ListRow.asCard l).position hi := h
    rw [if_pos h, if_pos h']
    rfl
  · have h' : ¬ ((ListRow.asCard l).listId = bid ∧
        lo ≤ (ListRow.asCard l).position ∧
        leHi (ListRow.asCard l).position hi) := h
    rw [if_neg h, if_neg h']

theorem asCard_sameShift (st : List ListRow) (bid : Nat) (oldP newP : Int) :
    (sameBoardShiftLists st bid oldP newP).map ListRow.asCard =
      sameListShiftCards (st.map ListRow.asCard) bid oldP newP := by
  unfold sameBoardShiftLists sameListShiftCards
  split_ifs <;> first | rfl | rw [asCard_bulkShift]

theorem asCard_find? (st : List ListRow) (i : Nat) :
    (st.map ListRow.asCard).find? (fun c => c.id = i) =
      (st.find? fun l => l.id = i).map ListRow.asCard := by
  rw [List.find?_map]
  rfl

theorem nextListPosition_def (st : List ListRow) (bid : Nat) :
    nextListPosition st bid =
      match (childListPositions st bid).max? with
      | some m => m + 1
      | none => 0 :=
  rfl

theorem asCard_nextPosition (st : List ListRow) (bid : Nat) :
    nextCardPosition (st.map ListRow.asCard) bid = nextListPosition st bid := by
  rw [nextCardPosition_def, nextListPosition_def, asCard_childPositions]

theorem asCard_create (st : List ListRow) (nid : Nat) (data : CreateListData) :
    (ListService.create st nid data).2.map ListRow.asCard =
      (CardService.create (st.map ListRow.asCard) nid
        { listId := data.boardId, position := data.position }).2 := by
  obtain ⟨bid, pos⟩ := data
  cases pos with
  | none =>
    show (st ++ [({ id := nid, boardId := bid, position := nextListPosition st bid } : ListRow)]).map ListRow.asCard = _
    rw [List.map_append]
    show _ = (st.map ListRow.asCard) ++
      [({ id := nid, listId := bid, position := nextCardPosition (st.map ListRow.asCard) bid } : Card)]
    rw [asCard_nextPosition]
    rfl
  | some p =>
    show (bulkShiftLists st bid p none 1 ++ [({ id := nid, boardId := bid, position := p } : ListRow)]).map ListRow.asCard = _
    rw [List.map_append, asCard_bulkShift]
    rfl

theorem asCard_update (st : List ListRow) (i : Nat) (data : UpdateListData) :
    (ListService.update st i data).map (List.map ListRow.asCard) =
      CardService.update (st.map ListRow.asCard) i
        { listId := none, position := data.position } := by
  obtain ⟨pos⟩ := data
  unfold ListService.update CardService.update
  rw [asCard_find?]
  cases hff : st.find? (fun l => l.id = i) with
  | none => rfl
  | some l0 =>
    show some _ = some _
    congr 1
    cases pos with
    | none =>
      rw [List.map_map, List.map_map]
      apply List.map_congr_left
      intro l _
      simp only [Function.comp_apply]
      by_cases h : l.id = i
      · rw [if_pos h, if_pos (show (ListRow.asCard l).id = i from h)]
        rfl
      · rw [if_neg h, if_neg (show ¬ (ListRow.asCard l).id = i from h)]
    | some p =>
      show ((sameBoardShiftLists st l0.boardId l0.position p).map fun l =>
          if l.id = i then { l with position := p } else l).map ListRow.asCard = _
      rw [List.map_map]
      show _ = (sameListShiftCards (st.map ListRow.asCard) (ListRow.asCard l0).listId
          (ListRow.asCard l0).position p).map fun c =>
            if c.id = i then
              applyCardSet { listId := none, position := some p } c
            else c
      rw [← asCard_sameShift, List.map_map]
      apply List.map_congr_left
      intro l _
      simp only [Function.comp_apply]
      by_cases h : l.id = i
      · rw [if_pos h, if_pos (show (ListRow.asCard l).id = i from h)]
        rfl
      · rw [if_neg h, if_neg (show ¬ (ListRow.asCard l).id = i from h)]

theorem asCard_delete (st : List ListRow) (i : Nat) :
    (ListService.delete st i).1 = (CardService.delete (st.map ListRow.asCard) i).1 ∧
      (ListService.delete st i).2.map ListRow.asCard =
        (CardService.delete (st.map ListRow.asCard) i).2 := by
  unfold ListService.delete CardService.delete
  rw [asCard_find?]
  cases hff : st.find? (fun l => l.id = i) with
  | none => exact ⟨rfl, rfl⟩
  | some l0 =>
    refine ⟨rfl, ?_⟩
    show (bulkShiftLists (st.filter fun l => ¬ l.id = i) l0.boardId
        (l0.position + 1) none (-1)).map ListRow.asCard = _
    rw [asCard_bulkShift]
    show bulkShiftCards ((st.filter fun l => ¬ l.id = i).map ListRow.asCard)
        l0.boardId (l0.position + 1) none (-1) = _
    congr 1
    rw [List.filter_map]
    rfl

theorem asCard_applyOp (st : List ListRow) (op : ListOp) :
    (applyListOp st op).map ListRow.asCard =
      applyCardOp (st.map ListRow.asCard) op.toCardOp := by
  cases op with
  | create nid data => exact asCard_create st nid data
  | update i data =>
    show ((ListService.update st i data).getD st).map ListRow.asCard = _
    have h := asCard_update st i data
    cases hff : ListService.update st i data with
    | none =>
      rw [hff] at h
      show st.map ListRow.asCard = (CardService.update (st.map ListRow.asCard)
        i { listId := none, position := data.position }).getD
          (st.map ListRow.asCard)
      rw [← h]
      rfl
    | some st' =>
      rw [hff] at h
      show st'.map ListRow.asCard = (CardService.update (st.map ListRow.asCard)
        i { listId := none, position := data.position }).getD
          (st.map ListRow.asCard)
      rw [← h]
      rfl
  | delete i => exact (asCard_delete st i).2

theorem asCard_opInRange (st : List ListRow) (op : ListOp) :
    listOpInRange st op = cardOpInRange (st.map ListRow.asCard) op.toCardOp := by
  cases op with
  | create nid data =>
    show (decide (nid ∉ st.map fun l => l.id) && _) = _
    rw [show cardOpInRange (st.map ListRow.asCard)
        (ListOp.toCardOp (.create nid data)) =
        (decide (nid ∉ (st.map ListRow.asCard).map fun c => c.id) &&
          (match data.position with
           | some p => decide (0 ≤ p ∧
               p ≤ (cardCount (st.map ListRow.asCard) data.boardId : Int))
           | none => true)) from rfl]
    rw [asCard_ids, asCard_count]
  | update i data =>
    show (match st.find? fun l => l.id = i with
      | none => true
      | some l0 =>
        match data.position with
        | some p => decide (0 ≤ p ∧ p < (listCount st l0.boardId : Int))
        | none => true) = _
    rw [show cardOpInRange (st.map ListRow.asCard)
        (ListOp.toCardOp (.update i data)) =
        (match (st.map ListRow.asCard).find? fun c => c.id = i with
         | none => true
         | some c0 =>
           match data.position with
           | some p => decide (0 ≤ p ∧
               p < (cardCount (st.map ListRow.asCard) c0.listId : Int))
           | none => true) from rfl]
    rw [asCard_find?]
    cases st.find? (fun l => l.id = i) with
    | none => rfl
    | some l0 =>
      show _ = (match data.position with
        | some p => decide (0 ≤ p ∧
            p < (cardCount (st.map ListRow.asCard) (ListRow.asCard l0).listId : Int))
        | none => true)

      cases data.position with
      | none => rfl
      | some p =>
        show decide (0 ≤ p ∧ p < (listCount st l0.boardId : Int)) = _
        rw [show (ListRow.asCard l0).listId = l0.boardId from rfl, asCard_count]
  | delete i => rfl

theorem asCard_wf (st : List ListRow) :
    ListsWF st ↔ CardsWF (st.map ListRow.asCard) := by
  unfold ListsWF CardsWF
  constructor
  · rintro ⟨h1, h2⟩
    refine ⟨?_, ?_⟩
    · unfold uniqueCardIds
      rw [asCard_ids]
      exact h1
    · intro lid
      rw [asCard_childPositions]
      exact h2 lid
  · rintro ⟨h1, h2⟩
    refine ⟨?_, ?_⟩
    · unfold uniqueListIds
      have := h1
      unfold uniqueCardIds at this
      rwa [asCard_ids] at this
    · intro bid
      have := h2 bid
      rwa [asCard_childPositions] at this

theorem applyListOps_preserves_wf :
    ∀ (ops : List ListOp) (st : List ListRow), ListsWF st →
      validListOps st ops = true → ListsWF (applyListOps st ops) := by
  intro ops
  induction ops with
  | nil =>
    intro st h _
    exact h
  | cons op ops ih =>
    intro st h hv
    unfold validListOps at hv
    rw [Bool.and_eq_true] at hv
    refine ih _ ?_ hv.2
    rw [asCard_wf]
    rw [asCard_applyOp]
    apply applyCardOp_preserves_wf ((asCard_wf st).mp h)
    rw [← asCard_opInRange]
    exact hv.1

theorem applyCardSet_eq_listid {c : Card} {lid : Nat} (h : c.listId = lid)
    (pos : Option Int) :
    applyCardSet { listId := some lid, position := pos } c =
      applyCardSet { listId := none, position := pos } c := by
  cases c
  simp_all [applyCardSet]

/-! ## Claim theorems -/

/-- Claim C1, counterexample: starting from an empty (hence dense)
container, a single insert with an explicit `requestedPosition` beyond the
end leaves the container at positions `[3]` instead of `[0]` — sorting by
position does not yield `0..n-1`, so the density invariant fails for
unrestricted insert positions (the code never clamps the requested
position). -/
theorem c1_density_counterexample :
    applyCardOps [] [CardOp.create 1 { listId := 5, position := some 3 }] =
      [{ id := 1, listId := 5, position := 3 }] ∧
    ¬ densePositions (childCardPositions
      (applyCardOps [] [CardOp.create 1 { listId := 5, position := some 3 }])
      5) := by
  constructor
  · rfl
  · decide

/-- Claim C1 (amended): for both container kinds (cards within a list,
lists within a board), starting from a well-formed table (unique ids,
every container dense), any finite sequence of service-layer insert /
reposition / cross-container-move / delete operations whose explicitly
supplied positions are in range (at most the container's size for
inserts and cross-moves, strictly below it for same-container
repositions) and whose created ids are fresh leaves every container
dense: its children's positions are a permutation of `0..n-1`. -/
theorem c1_density_invariant (stC : List Card) (opsC : List CardOp)
    (stL : List ListRow) (opsL : List ListOp) (hwfC : CardsWF stC)
    (hvC : validCardOps stC opsC = true) (hwfL : ListsWF stL)
    (hvL : validListOps stL opsL = true) :
    (∀ lid, densePositions (childCardPositions (applyCardOps stC opsC) lid)) ∧
    (∀ bid, densePositions (childListPositions (applyListOps stL opsL) bid)) :=
  ⟨(applyCardOps_preserves_wf opsC stC hwfC hvC).2,
   (applyListOps_preserves_wf opsL stL hwfL hvL).2⟩

/-- Witness for C1's amended theorem: a concrete run from the empty
tables through auto insert, explicit-position insert, same-container
reposition, cross-container move and delete, checked dense at the two
containers it touches. -/
theorem c1_density_invariant_witness :
    densePositions (childCardPositions (applyCardOps []
      [CardOp.create 1 { listId := 7, position := none },
       CardOp.create 2 { listId := 7, position := none },
       CardOp.create 3 { listId := 7, position := some 1 },
       CardOp.create 4 { listId := 8, position := none },
       CardOp.update 1 { listId := none, position := some 2 },
       CardOp.update 2 { listId := some 8, position := some 0 },
       CardOp.delete 3]) 7) ∧
    densePositions (childListPositions (applyListOps []
      [ListOp.create 1 { boardId := 9, position := none },
       ListOp.create 2 { boardId := 9, position := some 0 },
       ListOp.update 1 { position := some 1 },
       ListOp.delete 2]) 9) :=
  by
  have h := c1_density_invariant []
    [CardOp.create 1 { listId := 7, position := none },
     CardOp.create 2 { listId := 7, position := none },
     CardOp.create 3 { listId := 7, position := some 1 },
     CardOp.create 4 { listId := 8, position := none },
     CardOp.update 1 { listId := none, position := some 2 },
     CardOp.update 2 { listId := some 8, position := some 0 },
     CardOp.delete 3] []
    [ListOp.create 1 { boardId := 9, position := none },
     ListOp.create 2 { boardId := 9, position := some 0 },
     ListOp.update 1 { position := some 1 },
     ListOp.delete 2]
    ⟨by decide, fun _ => List.Perm.nil⟩ (by decide)
    ⟨by decide, fun _ => List.Perm.nil⟩ (by decide)
  exact ⟨h.1 7, h.2 9⟩

theorem CardsWF_of_bounded {st : List Card} (h1 : uniqueCardIds st)
    (h2 : ∀ lid ∈ st.map (fun c => c.listId),
      densePositions (childCardPositions st lid)) : CardsWF st := by
  refine ⟨h1, fun lid => ?_⟩
  by_cases hmem : lid ∈ st.map fun c => c.listId
  · exact h2 lid hmem
  · have hnil : childCardPositions st lid = [] := by
      unfold childCardPositions
      rw [List.filter_eq_nil_iff.mpr]
      · rfl
      · intro c hc hdec
        exact hmem (List.mem_map.mpr ⟨c, hc, by simpa using hdec⟩)
    rw [hnil]
    exact List.Perm.nil

theorem ListsWF_of_bounded {st : List ListRow} (h1 : uniqueListIds st)
    (h2 : ∀ bid ∈ st.map (fun l => l.boardId),
      densePositions (childListPositions st bid)) : ListsWF st := by
  refine ⟨h1, fun bid => ?_⟩
  by_cases hmem : bid ∈ st.map fun l => l.boardId
  · exact h2 bid hmem
  · have hnil : childListPositions st bid = [] := by
      unfold childListPositions
      rw [List.filter_eq_nil_iff.mpr]
      · rfl
      · intro l hl hdec
        exact hmem (List.mem_map.mpr ⟨l, hl, by simpa using hdec⟩)
    rw [hnil]
    exact List.Perm.nil

/-- Claim C6: deleting an existing entity removes its row and shifts every
remaining sibling whose position is strictly greater than the deleted
position by `-1` (stated for both `CardService.delete` and
`ListService.delete`); consequently a dense container stays dense. -/
theorem c6_delete_closes_gap :
    (∀ (st : List Card) (cid : Nat) (c0 : Card),
      st.find? (fun c => c.id = cid) = some c0 →
      CardService.delete st cid =
        (true, (st.filter fun c => ¬ c.id = cid).map fun c =>
          if c.listId = c0.listId ∧ c0.position < c.position then
            { c with position := c.position - 1 }
          else c) ∧
      (CardsWF st → ∀ lid, densePositions
        (childCardPositions (CardService.delete st cid).2 lid))) ∧
    (∀ (st : List ListRow) (i : Nat) (l0 : ListRow),
      st.find? (fun l => l.id = i) = some l0 →
      ListService.delete st i =
        (true, (st.filter fun l => ¬ l.id = i).map fun l =>
          if l.boardId = l0.boardId ∧ l0.position < l.position then
            { l with position := l.position - 1 }
          else l) ∧
      (ListsWF st → ∀ bid, densePositions
        (childListPositions (ListService.delete st i).2 bid))) := by
  constructor
  · intro st cid c0 hf
    constructor
    · show (match st.find? fun c => c.id = cid with
        | none => (false, st)
        | some existingCard => (true,
            bulkShiftCards (st.filter fun c => ¬ c.id = cid)
              existingCard.listId (existingCard.position + 1) none (-1))) = _
      rw [hf]
      show (true, bulkShiftCards (st.filter fun c => ¬ c.id = cid) c0.listId
        (c0.position + 1) none (-1)) = _
      congr 1
      unfold bulkShiftCards
      apply List.map_congr_left
      intro c _
      by_cases h1 : c.listId = c0.listId ∧ c0.position + 1 ≤ c.position ∧
          leHi c.position none
      · rw [if_pos h1, if_pos ⟨h1.1, by omega⟩]
        have he : c.position + (-1) = c.position - 1 := by omega
        rw [he]
      · rw [if_neg h1, if_neg fun h2 => h1 ⟨h2.1, by omega, trivial⟩]
    · intro hwf
      exact (CardService.delete_preserves_wf hwf).2
  · intro st i l0 hf
    constructor
    · show (match st.find? fun l => l.id = i with
        | none => (false, st)
        | some existingList => (true,
            bulkShiftLists (st.filter fun l => ¬ l.id = i)
              existingList.boardId (existingList.position + 1) none (-1))) = _
      rw [hf]
      show (true, bulkShiftLists (st.filter fun l => ¬ l.id = i) l0.boardId
        (l0.position + 1) none (-1)) = _
      congr 1
      unfold bulkShiftLists
      apply List.map_congr_left
      intro l _
      by_cases h1 : l.boardId = l0.boardId ∧ l0.position + 1 ≤ l.position ∧
          leHi l.position none
      · rw [if_pos h1, if_pos ⟨h1.1, by omega⟩]
        have he : l.position + (-1) = l.position - 1 := by omega
        rw [he]
      · rw [if_neg h1, if_neg fun h2 => h1 ⟨h2.1, by omega, trivial⟩]
    · intro hwf
      have hcwf : CardsWF ((ListService.delete st i).2.map ListRow.asCard) := by
        rw [(asCard_delete st i).2]
        exact CardService.delete_preserves_wf ((asCard_wf st).mp hwf)
      exact ((asCard_wf _).mpr hcwf).2

/-- Witness for C6 at the spec's own example: container `[A:0,B:1,C:2]`,
delete `B` (id 2) yields `[A:0,C:1]`, and the container is dense before
and after. -/
theorem c6_delete_closes_gap_witness :
    CardService.delete [⟨1, 7, 0⟩, ⟨2, 7, 1⟩, ⟨3, 7, 2⟩] 2 =
      (true, [⟨1, 7, 0⟩, ⟨3, 7, 1⟩]) ∧
    densePositions (childCardPositions
      (CardService.delete [⟨1, 7, 0⟩, ⟨2, 7, 1⟩, ⟨3, 7, 2⟩] 2).2 7) := by
  have h := c6_delete_closes_gap.1 [⟨1, 7, 0⟩, ⟨2, 7, 1⟩, ⟨3, 7, 2⟩] 2
    ⟨2, 7, 1⟩ (by decide)
  refine ⟨?_, h.2 (CardsWF_of_bounded (by decide) (by decide)) 7⟩
  rw [h.1]
  decide

/-- Claim C5: insert with no requested position appends the new entity at
`max existing position + 1` (or `0` in an empty container) and changes no
sibling row; insert with requested position `p` shifts every sibling with
`position >= p` by `+1` and inserts the new entity at exactly `p`.
Stated for `CardService.create` and `ListService.create`. -/
theorem c5_insert_semantics :
    (∀ (st : List Card) (newId lid : Nat),
      (CardService.create st newId { listId := lid, position := none }).2 =
        st ++ [(CardService.create st newId
          { listId := lid, position := none }).1] ∧
      (CardService.create st newId { listId := lid, position := none }).1 =
        { id := newId, listId := lid,
          position := nextCardPosition st lid } ∧
      (childCardPositions st lid = [] → nextCardPosition st lid = 0) ∧
      (∀ m, (childCardPositions st lid).max? = some m →
        nextCardPosition st lid = m + 1)) ∧
    (∀ (st : List Card) (newId lid : Nat) (p : Int),
      CardService.create st newId { listId := lid, position := some p } =
        ({ id := newId, listId := lid, position := p },
         (st.map fun c =>
           if c.listId = lid ∧ p ≤ c.position then
             { c with position := c.position + 1 }
           else c) ++ [{ id := newId, listId := lid, position := p }])) ∧
    (∀ (st : List ListRow) (newId bid : Nat),
      (ListService.create st newId { boardId := bid, position := none }).2 =
        st ++ [(ListService.create st newId
          { boardId := bid, position := none }).1] ∧
      (ListService.create st newId { boardId := bid, position := none }).1 =
        { id := newId, boardId := bid,
          position := nextListPosition st bid } ∧
      (childListPositions st bid = [] → nextListPosition st bid = 0) ∧
      (∀ m, (childListPositions st bid).max? = some m →
        nextListPosition st bid = m + 1)) ∧
    (∀ (st : List ListRow) (newId bid : Nat) (p : Int),
      ListService.create st newId { boardId := bid, position := some p } =
        ({ id := newId, boardId := bid, position := p },
         (st.map fun l =>
           if l.boardId = bid ∧ p ≤ l.position then
             { l with position := l.position + 1 }
           else l) ++ [{ id := newId, boardId := bid, position := p }])) := by
  refine ⟨fun st newId lid => ⟨rfl, rfl, ?_, ?_⟩, fun st newId lid p => ?_,
    fun st newId bid => ⟨rfl, rfl, ?_, ?_⟩, fun st newId bid p => ?_⟩
  · intro hnil
    rw [nextCardPosition_def, hnil]
    rfl
  · intro m hm
    rw [nextCardPosition_def, hm]
  · show (({ id := newId, listId := lid, position := p } : Card),
      bulkShiftCards st lid p none 1 ++
        [({ id := newId, listId := lid, position := p } : Card)]) = _
    congr 2
    unfold bulkShiftCards
    apply List.map_congr_left
    intro c _
    by_cases h1 : c.listId = lid ∧ p ≤ c.position ∧ leHi c.position none
    · rw [if_pos h1, if_pos ⟨h1.1, h1.2.1⟩]
    · rw [if_neg h1, if_neg fun h2 => h1 ⟨h2.1, h2.2, trivial⟩]
  · intro hnil
    rw [nextListPosition_def, hnil]
    rfl
  · intro m hm
    rw [nextListPosition_def, hm]
  · show (({ id := newId, boardId := bid, position := p } : ListRow),
      bulkShiftLists st bid p none 1 ++
        [({ id := newId, boardId := bid, position := p } : ListRow)]) = _
    congr 2
    unfold bulkShiftLists
    apply List.map_congr_left
    intro l _
    by_cases h1 : l.boardId = bid ∧ p ≤ l.position ∧ leHi l.position none
    · rw [if_pos h1, if_pos ⟨h1.1, h1.2.1⟩]
    · rw [if_neg h1, if_neg fun h2 => h1 ⟨h2.1, h2.2, trivial⟩]

/-- Witness for C5 at the spec's examples: inserting into `[0,1,2]` with
no position yields position `3`; inserting `D` at position `1` into
`[A:0,B:1,C:2]` yields `[A:0,D:1,B:2,C:3]`. -/
theorem c5_insert_semantics_witness :
    nextCardPosition [⟨1, 7, 0⟩, ⟨2, 7, 1⟩, ⟨3, 7, 2⟩] 7 = 3 ∧
    (CardService.create [⟨1, 7, 0⟩, ⟨2, 7, 1⟩, ⟨3, 7, 2⟩] 4
      { listId := 7, position := some 1 }).2 =
      [⟨1, 7, 0⟩, ⟨2, 7, 2⟩, ⟨3, 7, 3⟩, ⟨4, 7, 1⟩] := by
  constructor
  · exact (c5_insert_semantics.1 [⟨1, 7, 0⟩, ⟨2, 7, 1⟩, ⟨3, 7, 2⟩] 4 7).2.2.2
      2 (by decide)
  · rw [c5_insert_semantics.2.1 [⟨1, 7, 0⟩, ⟨2, 7, 1⟩, ⟨3, 7, 2⟩] 4 7 1]
    decide


theorem repos_fwd_pointwise {cid : Nat} {c0 : Card} {p : Int}
    (hdir : c0.position < p) (c : Card) :
    (fun x => if x.id = cid then
        applyCardSet { listId := none, position := some p } x else x)
      (if c.listId = c0.listId ∧ c0.position + 1 ≤ c.position ∧
          leHi c.position (some p) then
        { c with position := c.position + (-1) }
      else c) =
    (if c.id = cid then { c with position := p }
     else if c0.position < p ∧ c.listId = c0.listId ∧
         c0.position + 1 ≤ c.position ∧ c.position ≤ p then
       { c with position := c.position - 1 }
     else if p < c0.position ∧ c.listId = c0.listId ∧
         p ≤ c.position ∧ c.position ≤ c0.position - 1 then
       { c with position := c.position + 1 }
     else c) := by
  cases c with
  | mk ci cl cp =>
    simp only [leHi, applyCardSet]
    split_ifs <;> simp_all [Card.mk.injEq] <;> omega

theorem repos_bwd_pointwise {cid : Nat} {c0 : Card} {p : Int}
    (hdir : p < c0.position) (c : Card) :
    (fun x => if x.id = cid then
        applyCardSet { listId := none, position := some p } x else x)
      (if c.listId = c0.listId ∧ p ≤ c.position ∧
          leHi c.position (some (c0.position - 1)) then
        { c with position := c.position + 1 }
      else c) =
    (if c.id = cid then { c with position := p }
     else if c0.position < p ∧ c.listId = c0.listId ∧
         c0.position + 1 ≤ c.position ∧ c.position ≤ p then
       { c with position := c.position - 1 }
     else if p < c0.position ∧ c.listId = c0.listId ∧
         p ≤ c.position ∧ c.position ≤ c0.position - 1 then
       { c with position := c.position + 1 }
     else c) := by
  cases c with
  | mk ci cl cp =>
    simp only [leHi, applyCardSet]
    split_ifs <;> simp_all [Card.mk.injEq] <;> omega

theorem repos_fwd_pointwise_list {i : Nat} {l0 : ListRow} {p : Int}
    (hdir : l0.position < p) (l : ListRow) :
    (fun x => if x.id = i then
        ({ x with position := p } : ListRow) else x)
      (if l.boardId = l0.boardId ∧ l0.position + 1 ≤ l.position ∧
          leHi l.position (some p) then
        { l with position := l.position + (-1) }
      else l) =
    (if l.id = i then { l with position := p }
     else if l0.position < p ∧ l.boardId = l0.boardId ∧
         l0.position + 1 ≤ l.position ∧ l.position ≤ p then
       { l with position := l.position - 1 }
     else if p < l0.position ∧ l.boardId = l0.boardId ∧
         p ≤ l.position ∧ l.position ≤ l0.position - 1 then
       { l with position := l.position + 1 }
     else l) := by
  cases l with
  | mk li lb lp =>
    simp only [leHi]
    split_ifs <;> simp_all [ListRow.mk.injEq] <;> omega

theorem repos_bwd_pointwise_list {i : Nat} {l0 : ListRow} {p : Int}
    (hdir : p < l0.position) (l : ListRow) :
    (fun x => if x.id = i then
        ({ x with position := p } : ListRow) else x)
      (if l.boardId = l0.boardId ∧ p ≤ l.position ∧
          leHi l.position (some (l0.position - 1)) then
        { l with position := l.position + 1 }
      else l) =
    (if l.id = i then { l with position := p }
     else if l0.position < p ∧ l.boardId = l0.boardId ∧
         l0.position + 1 ≤ l.position ∧ l.position ≤ p then
       { l with position := l.position - 1 }
     else if p < l0.position ∧ l.boardId = l0.boardId ∧
         p ≤ l.position ∧ l.position ≤ l0.position - 1 then
       { l with position := l.position + 1 }
     else l) := by
  cases l with
  | mk li lb lp =>
    simp only [leHi]
    split_ifs <;> simp_all [ListRow.mk.injEq] <;> omega

theorem ListService.update_some_pos {st : List ListRow} {i : Nat}
    {l0 : ListRow} {p : Int} (hf : st.find? (fun l => l.id = i) = some l0) :
    ListService.update st i { position := some p } =
      some ((sameBoardShiftLists st l0.boardId l0.position p).map fun l =>
        if l.id = i then { l with position := p } else l) := by
  unfold ListService.update
  rw [hf]

theorem ListService.update_none_pos {st : List ListRow} {i : Nat}
    {l0 : ListRow} (hf : st.find? (fun l => l.id = i) = some l0) :
    ListService.update st i { position := none } =
      some (st.map fun l =>
        if l.id = i then { l with position := l.position } else l) := by
  unfold ListService.update
  rw [hf]

/-- Claim C4: a same-container reposition from `oldPosition` to a
different `newPosition` shifts exactly the siblings in
`[oldPosition+1, newPosition]` by `-1` when moving later, exactly the
siblings in `[newPosition, oldPosition-1]` by `+1` when moving earlier,
and then sets the entity itself to `newPosition`, leaving every other row
untouched; stated extensionally for `CardService.update` (position-only
body) and `ListService.update`. -/
theorem c4_reposition_ranges :
    (∀ (st : List Card) (cid : Nat) (c0 : Card) (p : Int),
      st.find? (fun c => c.id = cid) = some c0 → c0.position ≠ p →
      CardService.update st cid { listId := none, position := some p } =
        some (st.map fun c =>
          if c.id = cid then { c with position := p }
          else if c0.position < p ∧ c.listId = c0.listId ∧
              c0.position + 1 ≤ c.position ∧ c.position ≤ p then
            { c with position := c.position - 1 }
          else if p < c0.position ∧ c.listId = c0.listId ∧
              p ≤ c.position ∧ c.position ≤ c0.position - 1 then
            { c with position := c.position + 1 }
          else c)) ∧
    (∀ (st : List ListRow) (i : Nat) (l0 : ListRow) (p : Int),
      st.find? (fun l => l.id = i) = some l0 → l0.position ≠ p →
      ListService.update st i { position := some p } =
        some (st.map fun l =>
          if l.id = i then { l with position := p }
          else if l0.position < p ∧ l.boardId = l0.boardId ∧
              l0.position + 1 ≤ l.position ∧ l.position ≤ p then
            { l with position := l.position - 1 }
          else if p < l0.position ∧ l.boardId = l0.boardId ∧
              p ≤ l.position ∧ l.position ≤ l0.position - 1 then
            { l with position := l.position + 1 }
          else l)) := by
  constructor
  · intro st cid c0 p hf hne
    rw [CardService.update_same_no_listid hf]
    congr 1
    unfold sameListShiftCards
    rw [if_pos hne]
    rcases lt_trichotomy c0.position p with hdir | heq | hdir
    · rw [if_pos hdir]
      unfold bulkShiftCards
      rw [List.map_map]
      exact List.map_congr_left fun c _ => repos_fwd_pointwise hdir c
    · exact absurd heq hne
    · rw [if_neg (by omega), if_pos hdir]
      unfold bulkShiftCards
      rw [List.map_map]
      exact List.map_congr_left fun c _ => repos_bwd_pointwise hdir c
  · intro st i l0 p hf hne
    rw [ListService.update_some_pos hf]
    congr 1
    unfold sameBoardShiftLists
    rw [if_pos hne]
    rcases lt_trichotomy l0.position p with hdir | heq | hdir
    · rw [if_pos hdir]
      unfold bulkShiftLists
      rw [List.map_map]
      exact List.map_congr_left fun l _ => repos_fwd_pointwise_list hdir l
    · exact absurd heq hne
    · rw [if_neg (by omega), if_pos hdir]
      unfold bulkShiftLists
      rw [List.map_map]
      exact List.map_congr_left fun l _ => repos_bwd_pointwise_list hdir l

/-- Witness for C4 at the spec's examples: `[A:0,B:1,C:2,D:3]`, moving A
to 2 yields `[B:0,C:1,A:2,D:3]` and moving D to 1 yields
`[A:0,D:1,B:2,C:3]`. -/
theorem c4_reposition_ranges_witness :
    CardService.update [⟨1, 7, 0⟩, ⟨2, 7, 1⟩, ⟨3, 7, 2⟩, ⟨4, 7, 3⟩] 1
      { listId := none, position := some 2 } =
      some [⟨1, 7, 2⟩, ⟨2, 7, 0⟩, ⟨3, 7, 1⟩, ⟨4, 7, 3⟩] ∧
    CardService.update [⟨1, 7, 0⟩, ⟨2, 7, 1⟩, ⟨3, 7, 2⟩, ⟨4, 7, 3⟩] 4
      { listId := none, position := some 1 } =
      some [⟨1, 7, 0⟩, ⟨2, 7, 2⟩, ⟨3, 7, 3⟩, ⟨4, 7, 1⟩] := by
  constructor
  · rw [c4_reposition_ranges.1 [⟨1, 7, 0⟩, ⟨2, 7, 1⟩, ⟨3, 7, 2⟩, ⟨4, 7, 3⟩] 1
      ⟨1, 7, 0⟩ 2 (by decide) (by decide)]
    decide
  · rw [c4_reposition_ranges.1 [⟨1, 7, 0⟩, ⟨2, 7, 1⟩, ⟨3, 7, 2⟩, ⟨4, 7, 3⟩] 4
      ⟨4, 7, 3⟩ 1 (by decide) (by decide)]
    decide

theorem asCard_injective : Function.Injective ListRow.asCard := by
  intro a b h
  cases a
  cases b
  simpa [ListRow.asCard, Card.mk.injEq, ListRow.mk.injEq] using h

/-- Claim C9: repositioning an entity to its current position changes no
row: the whole table is returned exactly as it was (so every entity's
position, the target's included, is unchanged).  Stated for
`CardService.update` and `ListService.update` under unique primary
keys. -/
theorem c9_noop_reposition :
    (∀ (st : List Card) (cid : Nat) (c0 : Card), uniqueCardIds st →
      st.find? (fun c => c.id = cid) = some c0 →
      CardService.update st cid
        { listId := none, position := some c0.position } = some st) ∧
    (∀ (st : List ListRow) (i : Nat) (l0 : ListRow), uniqueListIds st →
      st.find? (fun l => l.id = i) = some l0 →
      ListService.update st i { position := some l0.position } = some st) := by
  have hcard : ∀ (st : List Card) (cid : Nat) (c0 : Card), uniqueCardIds st →
      st.find? (fun c => c.id = cid) = some c0 →
      CardService.update st cid
        { listId := none, position := some c0.position } = some st := by
    intro st cid c0 hu hf
    rw [CardService.update_same_no_listid hf]
    have hshift : sameListShiftCards st c0.listId c0.position c0.position =
        st := by
      unfold sameListShiftCards
      rw [if_neg (fun h => h rfl)]
    rw [hshift]
    have hfix : applyCardSet
        { listId := none, position := some c0.position } c0 = c0 := rfl
    rw [map_set_self hu hf hfix]
  refine ⟨hcard, ?_⟩
  intro st i l0 hu hf
  have hfc : (st.map ListRow.asCard).find? (fun c => c.id = i) =
      some (ListRow.asCard l0) := by
    rw [asCard_find?, hf]
    rfl
  have huc : uniqueCardIds (st.map ListRow.asCard) := by
    unfold uniqueCardIds
    rw [asCard_ids]
    exact hu
  have hmain := hcard (st.map ListRow.asCard) i (ListRow.asCard l0) huc hfc
  have hcomm : Option.map (List.map ListRow.asCard)
      (ListService.update st i { position := some l0.position }) =
      some (st.map ListRow.asCard) := by
    rw [asCard_update st i { position := some l0.position }]
    exact hmain
  cases hres : ListService.update st i { position := some l0.position } with
  | none =>
    rw [hres] at hcomm
    exact absurd hcomm (by simp)
  | some st' =>
    rw [hres] at hcomm
    have hmeq : st'.map ListRow.asCard = st.map ListRow.asCard := by
      simpa using hcomm
    have : st' = st := (List.map_injective_iff.mpr asCard_injective) hmeq
    rw [this]

/-- Witness for C9: repositioning card 2 of `[1:0, 2:1]` to its current
position 1 returns the table unchanged. -/
theorem c9_noop_reposition_witness :
    CardService.update [⟨1, 7, 0⟩, ⟨2, 7, 1⟩] 2
      { listId := none, position := some 1 } =
      some [⟨1, 7, 0⟩, ⟨2, 7, 1⟩] :=
  c9_noop_reposition.1 [⟨1, 7, 0⟩, ⟨2, 7, 1⟩] 2 ⟨2, 7, 1⟩ (by decide)
    (by decide)

theorem cross_auto_pointwise {cid : Nat} {c0 : Card} {dst : Nat} {q : Int}
    (c : Card) :
    (fun x => if x.id = cid then
        applyCardSet { listId := some dst, position := some q } x else x)
      (if c.listId = c0.listId ∧ c0.position + 1 ≤ c.position ∧
          leHi c.position none then
        { c with position := c.position + (-1) }
      else c) =
    (if c.id = cid then { c with listId := dst, position := q }
     else if c.listId = c0.listId ∧ c0.position < c.position then
       { c with position := c.position - 1 }
     else c) := by
  cases c with
  | mk ci cl cp =>
    simp only [leHi, applyCardSet]
    split_ifs <;> simp_all [Card.mk.injEq] <;> omega

theorem cross_explicit_pointwise {cid : Nat} {c0 : Card} {dst : Nat}
    {p : Int} (hne : dst ≠ c0.listId) (c : Card) :
    (fun x => if x.id = cid then
        applyCardSet { listId := some dst, position := some p } x else x)
      ((fun y =>
        if y.listId = dst ∧ p ≤ y.position ∧ leHi y.position none then
          { y with position := y.position + 1 }
        else y)
       (if c.listId = c0.listId ∧ c0.position + 1 ≤ c.position ∧
           leHi c.position none then
         { c with position := c.position + (-1) }
       else c)) =
    (if c.id = cid then { c with listId := dst, position := p }
     else if c.listId = c0.listId ∧ c0.position < c.position then
       { c with position := c.position - 1 }
     else if c.listId = dst ∧ p ≤ c.position then
       { c with position := c.position + 1 }
     else c) := by
  cases c with
  | mk ci cl cp =>
    simp only [leHi, applyCardSet]
    split_ifs <;> simp_all [Card.mk.injEq] <;> omega

/-- Claim C2: a cross-container card move (update whose body carries a
`listId` different from the card's current list) closes the source gap by
shifting every source sibling with position strictly greater than the
card's old position by `-1`; takes the destination end position
(`max + 1`, or `0` when the destination is empty) when no position is
given, or shifts every destination sibling with `position >= p` by `+1`
when `p` is given; and writes the card's new `listId` and the computed
position, touching no other row. -/
theorem c2_cross_move :
    (∀ (st : List Card) (cid : Nat) (c0 : Card) (dst : Nat),
      st.find? (fun c => c.id = cid) = some c0 → dst ≠ c0.listId →
      CardService.update st cid { listId := some dst, position := none } =
        some (st.map fun c =>
          if c.id = cid then
            { c with listId := dst, position := nextCardPosition st dst }
          else if c.listId = c0.listId ∧ c0.position < c.position then
            { c with position := c.position - 1 }
          else c) ∧
      (childCardPositions st dst = [] → nextCardPosition st dst = 0) ∧
      (∀ m, (childCardPositions st dst).max? = some m →
        nextCardPosition st dst = m + 1)) ∧
    (∀ (st : List Card) (cid : Nat) (c0 : Card) (dst : Nat) (p : Int),
      st.find? (fun c => c.id = cid) = some c0 → dst ≠ c0.listId →
      CardService.update st cid { listId := some dst, position := some p } =
        some (st.map fun c =>
          if c.id = cid then { c with listId := dst, position := p }
          else if c.listId = c0.listId ∧ c0.position < c.position then
            { c with position := c.position - 1 }
          else if c.listId = dst ∧ p ≤ c.position then
            { c with position := c.position + 1 }
          else c)) := by
  constructor
  · intro st cid c0 dst hf hne
    have hq : nextCardPosition
        (bulkShiftCards st c0.listId (c0.position + 1) none (-1)) dst =
        nextCardPosition st dst := by
      rw [nextCardPosition_def, nextCardPosition_def,
        childCardPositions_bulkShiftCards_ne st hne]
    refine ⟨?_, ?_, ?_⟩
    · rw [CardService.update_cross_auto hf hne, hq]
      congr 1
      unfold bulkShiftCards
      rw [List.map_map]
      exact List.map_congr_left fun c _ => cross_auto_pointwise c
    · intro hnil
      rw [nextCardPosition_def, hnil]
      rfl
    · intro m hm
      rw [nextCardPosition_def, hm]
  · intro st cid c0 dst p hf hne
    rw [CardService.update_cross_explicit hf hne]
    congr 1
    unfold bulkShiftCards
    rw [List.map_map, List.map_map]
    exact List.map_congr_left fun c _ => cross_explicit_pointwise hne c

/-- Witness for C2 at the spec's example: source `[A:0,B:1]` (list 7),
destination `[X:0,Y:1]` (list 8); moving `A` to the destination at
position 1 leaves the source as `[B:0]` and the destination as
`[X:0,A:1,Y:2]`; moving `A` with no position appends it at `2`. -/
theorem c2_cross_move_witness :
    CardService.update [⟨1, 7, 0⟩, ⟨2, 7, 1⟩, ⟨3, 8, 0⟩, ⟨4, 8, 1⟩] 1
      { listId := some 8, position := some 1 } =
      some [⟨1, 8, 1⟩, ⟨2, 7, 0⟩, ⟨3, 8, 0⟩, ⟨4, 8, 2⟩] ∧
    CardService.update [⟨1, 7, 0⟩, ⟨2, 7, 1⟩, ⟨3, 8, 0⟩, ⟨4, 8, 1⟩] 1
      { listId := some 8, position := none } =
      some [⟨1, 8, 2⟩, ⟨2, 7, 0⟩, ⟨3, 8, 0⟩, ⟨4, 8, 1⟩] := by
  constructor
  · rw [c2_cross_move.2 [⟨1, 7, 0⟩, ⟨2, 7, 1⟩, ⟨3, 8, 0⟩, ⟨4, 8, 1⟩] 1
      ⟨1, 7, 0⟩ 8 1 (by decide) (by decide)]
    decide
  · rw [(c2_cross_move.1 [⟨1, 7, 0⟩, ⟨2, 7, 1⟩, ⟨3, 8, 0⟩, ⟨4, 8, 1⟩] 1
      ⟨1, 7, 0⟩ 8 (by decide) (by decide)).1]
    decide

/-- Claim C3: a cross-list card move whose destination list's board is not
owned by the requesting user is rejected with a Forbidden response before
any write: the whole database — source and destination containers
included — is returned exactly as it was.  Source ownership is validated
too: when it fails, the request is likewise rejected with Forbidden and
no change. -/
theorem c3_forbidden_move_leaves_state (db : DB) (u cid : Nat)
    (data : UpdateCardData) (c0 : Card) (dst : Nat)
    (hf : db.cards.find? (fun c => c.id = cid) = some c0)
    (hlid : data.listId = some dst) (hne : dst ≠ c0.listId)
    (hown : checkListOwnership db dst u = false) :
    (updateCardController db u cid data).2 = db ∧
    ((updateCardController db u cid data).1 = CardUpdateResp.forbiddenCard ∨
     (updateCardController db u cid data).1 =
       CardUpdateResp.forbiddenTargetList) := by
  obtain ⟨dlid, dpos⟩ := data
  obtain rfl : dlid = some dst := hlid
  unfold updateCardController
  simp only [hf]
  by_cases hsrc : checkListOwnership db c0.listId u
  · simp [hsrc, hne, hown]
  · simp [hsrc]

/-- Witness for C3: user 1 owns board 1 (list 10, card 100); board 2
(list 20) belongs to user 2.  User 1's attempt to move card 100 into
list 20 is answered with the target-list Forbidden response and the
database is unchanged. -/
theorem c3_forbidden_move_leaves_state_witness :
    (updateCardController
      ⟨[⟨1, 1⟩, ⟨2, 2⟩], [⟨10, 1, 0⟩, ⟨20, 2, 0⟩], [⟨100, 10, 0⟩]⟩ 1 100
      { listId := some 20, position := none }).2 =
      ⟨[⟨1, 1⟩, ⟨2, 2⟩], [⟨10, 1, 0⟩, ⟨20, 2, 0⟩], [⟨100, 10, 0⟩]⟩ ∧
    (updateCardController
      ⟨[⟨1, 1⟩, ⟨2, 2⟩], [⟨10, 1, 0⟩, ⟨20, 2, 0⟩], [⟨100, 10, 0⟩]⟩ 1 100
      { listId := some 20, position := none }).1 =
      CardUpdateResp.forbiddenTargetList := by
  have h := c3_forbidden_move_leaves_state
    ⟨[⟨1, 1⟩, ⟨2, 2⟩], [⟨10, 1, 0⟩, ⟨20, 2, 0⟩], [⟨100, 10, 0⟩]⟩ 1 100
    { listId := some 20, position := none } ⟨100, 10, 0⟩ 20 (by decide) rfl
    (by decide) (by decide)
  refine ⟨h.1, ?_⟩
  rcases h.2 with h2 | h2
  · exact absurd h2 (by decide)
  · exact h2

/-- Claim C7, code evaluation at the failing input: with board 1 owned by
user 2 and list 10 on it, user 1's `GET /api/lists/99999` (nonexistent
id) and `GET /api/lists/10` (existing, owner mismatch) both produce the
`authorizeList` Forbidden response — `canAccessList` returns a bare
boolean that collapses NotFound into `false`, so the 404 case the claim
(and the repo's own integration tests) require never occurs. -/
theorem c7_notfound_collapses_to_forbidden :
    AuthorizationService.canAccessList
      ⟨[⟨1, 2⟩], [⟨10, 1, 0⟩], []⟩ 99999 1 = false ∧
    getListByIdRoute ⟨[⟨1, 2⟩], [⟨10, 1, 0⟩], []⟩ 1 99999 =
      ListGetResp.forbidden ∧
    getListByIdRoute ⟨[⟨1, 2⟩], [⟨10, 1, 0⟩], []⟩ 1 10 =
      ListGetResp.forbidden := by
  decide

/-- Claim C8, counterexample to the insert clause: with empty tables,
updating nonexistent card 99 yields the NotFound (404) response, but
creating a card in nonexistent list 5 yields the Forbidden (403)
response from the ownership check — a missing container is NOT treated
the same way as entity-not-found. -/
theorem c8_insert_forbidden_not_notfound :
    (updateCardController ⟨[], [], []⟩ 1 99
      { listId := none, position := some 0 }).1 = CardUpdateResp.notFound ∧
    (createCardController ⟨[], [], []⟩ 1 10
      { listId := 5, position := none }).1 = CardCreateResp.forbidden ∧
    (createCardController ⟨[], [], []⟩ 1 10
      { listId := 5, position := none }).2 = ⟨[], [], []⟩ := by
  decide

/-- Claim C8 (amended): an update or delete targeting a nonexistent id
returns `null` / `false` with the table untouched, and the controller
answers 404 with the database unchanged; an insert whose container does
not exist is rejected by the ownership check with Forbidden (403), not
with the entity-not-found 404. -/
theorem c8_notfound_semantics :
    (∀ (st : List Card) (cid : Nat) (data : UpdateCardData),
      st.find? (fun c => c.id = cid) = none →
      CardService.update st cid data = none ∧
      CardService.delete st cid = (false, st)) ∧
    (∀ (db : DB) (u cid : Nat) (data : UpdateCardData),
      db.cards.find? (fun c => c.id = cid) = none →
      updateCardController db u cid data = (CardUpdateResp.notFound, db)) ∧
    (∀ (db : DB) (u newId : Nat) (data : CreateCardData),
      db.lists.find? (fun l => l.id = data.listId) = none →
      createCardController db u newId data = (CardCreateResp.forbidden, db)) := by
  refine ⟨fun st cid data hf => ⟨CardService.update_of_find?_none data hf, ?_⟩,
    fun db u cid data hf => ?_, fun db u newId data hf => ?_⟩
  · unfold CardService.delete
    rw [hf]
  · unfold updateCardController
    rw [hf]
  · unfold createCardController
    have hck : checkListOwnership db data.listId u = false := by
      unfold checkListOwnership
      rw [hf]
    rw [if_pos (by simp [hck])]

/-- Witness for C8's amended theorem at concrete inputs: card id 42 does
not exist in a one-card table, and list id 5 does not exist in an empty
database. -/
theorem c8_notfound_semantics_witness :
    CardService.update [⟨1, 7, 0⟩] 42 { listId := none, position := some 0 } =
      none ∧
    CardService.delete [⟨1, 7, 0⟩] 42 = (false, [⟨1, 7, 0⟩]) ∧
    createCardController ⟨[], [], []⟩ 1 10 { listId := 5, position := none } =
      (CardCreateResp.forbidden, ⟨[], [], []⟩) := by
  have h1 := c8_notfound_semantics.1 [⟨1, 7, 0⟩] 42
    { listId := none, position := some 0 } (by decide)
  have h3 := c8_notfound_semantics.2.2 ⟨[], [], []⟩ 1 10
    { listId := 5, position := none } (by decide)
  exact ⟨h1.1, h1.2, h3⟩

theorem sameListShift_target_listid {st : List Card} {cid : Nat} {c0 : Card}
    (hu : uniqueCardIds st) (hf : st.find? (fun c => c.id = cid) = some c0)
    (lid : Nat) (o n : Int) :
    ∀ c ∈ sameListShiftCards st lid o n, c.id = cid → c.listId = c0.listId := by
  have hbase : ∀ c ∈ st, c.id = cid → c.listId = c0.listId := by
    intro c hc hcid
    rw [eq_c0_of_mem_id hu hf c hc hcid]
  intro c hc hcid
  unfold sameListShiftCards at hc
  split_ifs at hc
  · unfold bulkShiftCards at hc
    obtain ⟨a, ha, rfl⟩ := List.mem_map.mp hc
    by_cases hcond : a.listId = lid ∧ o + 1 ≤ a.position ∧ leHi a.position (some n)
    · rw [if_pos hcond] at hcid ⊢
      exact hbase a ha hcid
    · rw [if_neg hcond] at hcid ⊢
      exact hbase a ha hcid
  · unfold bulkShiftCards at hc
    obtain ⟨a, ha, rfl⟩ := List.mem_map.mp hc
    by_cases hcond : a.listId = lid ∧ n ≤ a.position ∧ leHi a.position (some (o - 1))
    · rw [if_pos hcond] at hcid ⊢
      exact hbase a ha hcid
    · rw [if_neg hcond] at hcid ⊢
      exact hbase a ha hcid
  · exact hbase c hc hcid
  · exact hbase c hc hcid

/-- Claim C10, counterexample: at the live controller (`updateCard` in
card.controller.ts), a body carrying `listId` equal to the card's current
list together with a new position skips the same-list sibling shift —
the branch requires `!validatedData.listId` — and writes the position
directly, so the result differs from the identical request with `listId`
omitted (which shifts the sibling), even producing duplicate
positions. -/
theorem c10_controller_counterexample :
    (updateCardController ⟨[⟨1, 1⟩], [⟨1, 1, 0⟩], [⟨1, 1, 0⟩, ⟨2, 1, 1⟩]⟩ 1 1
      { listId := some 1, position := some 1 }).2.cards =
      [⟨1, 1, 1⟩, ⟨2, 1, 1⟩] ∧
    (updateCardController ⟨[⟨1, 1⟩], [⟨1, 1, 0⟩], [⟨1, 1, 0⟩, ⟨2, 1, 1⟩]⟩ 1 1
      { listId := none, position := some 1 }).2.cards =
      [⟨1, 1, 1⟩, ⟨2, 1, 0⟩] ∧
    (updateCardController ⟨[⟨1, 1⟩], [⟨1, 1, 0⟩], [⟨1, 1, 0⟩, ⟨2, 1, 1⟩]⟩ 1 1
      { listId := some 1, position := some 1 }).2 ≠
    (updateCardController ⟨[⟨1, 1⟩], [⟨1, 1, 0⟩], [⟨1, 1, 0⟩, ⟨2, 1, 1⟩]⟩ 1 1
      { listId := none, position := some 1 }).2 := by
  decide

/-- Claim C10 (amended): at the service layer, `CardService.update` with a
body whose `listId` equals the card's current list behaves exactly like
the same body with `listId` omitted — same sibling shifts, same final
table; the live controller, however, skips the same-list shift whenever a
`listId` is present and writes the position directly, so there the two
requests differ. -/
theorem c10_same_list_equivalence (st : List Card) (cid : Nat) (c0 : Card)
    (pos : Option Int) (hu : uniqueCardIds st)
    (hf : st.find? (fun c => c.id = cid) = some c0) :
    CardService.update st cid { listId := some c0.listId, position := pos } =
      CardService.update st cid { listId := none, position := pos } := by
  cases pos with
  | some p =>
    rw [CardService.update_same_eq_listid hf,
      CardService.update_same_no_listid hf]
    congr 1
    apply List.map_congr_left
    intro c hc
    by_cases hid : c.id = cid
    · rw [if_pos hid, if_pos hid,
        applyCardSet_eq_listid
          (sameListShift_target_listid hu hf c0.listId c0.position p c hc hid)]
    · rw [if_neg hid, if_neg hid]
  | none =>
    rw [CardService.update_eq_listid_no_pos hf, CardService.update_no_fields hf]
    congr 1
    apply List.map_congr_left
    intro c hc
    by_cases hid : c.id = cid
    · rw [if_pos hid, if_pos hid,
        applyCardSet_eq_listid
          (by rw [eq_c0_of_mem_id hu hf c hc hid])]
    · rw [if_neg hid, if_neg hid]

/-- Witness for C10's amended theorem: on `[1:0, 2:1]` in list 7, updating
card 1 with `listId = 7, position = 1` equals updating with the `listId`
omitted. -/
theorem c10_same_list_equivalence_witness :
    CardService.update [⟨1, 7, 0⟩, ⟨2, 7, 1⟩] 1
      { listId := some 7, position := some 1 } =
      CardService.update [⟨1, 7, 0⟩, ⟨2, 7, 1⟩] 1
        { listId := none, position := some 1 } :=
  c10_same_list_equivalence [⟨1, 7, 0⟩, ⟨2, 7, 1⟩] 1 ⟨1, 7, 0⟩ (some 1)
    (by decide) (by decide)
